import Mathlib

/-!
Verification of the weighted active-learning classification core of the
F-For-LLM backend (`backend/app/services/`): the SVM scoring pipeline
(`classification_service.py`, `svm_utils.py`), the RF+MLP committee
(`committee_service.py`) and the Kennard-Stone cold-start sampler
(`cold_start_service.py`).

The python services are shallowly embedded below.  Numeric data is modelled
over `ℚ` (the services do exact-looking arithmetic on request-sized data;
floating point rounding is not the subject of any claim).  The opaque
sklearn / torch estimators (`SVC.fit`, `RandomForestClassifier.fit`,
`WeightedMLPClassifier.fit` and their `predict` methods) are parameters of
the embedding: the services only move their results around, never inspect
them.  `StandardScaler` is embedded concretely (mean / population-std per
column); its square root is exact on the perfect-square variances used by
every concrete instance in this file.
-/

namespace FForLLM

/-! ## Basic list helpers (mirroring numpy reductions) -/

/-- Maximum of a rational list (`np.max`); `0` on the empty list, which the
services never reach. -/
def listMax : List ℚ → ℚ
  | [] => 0
  | [x] => x
  | x :: y :: t => max x (listMax (y :: t))

/-- Minimum of a rational list (`np.min`); `0` on the empty list. -/
def listMin : List ℚ → ℚ
  | [] => 0
  | [x] => x
  | x :: y :: t => min x (listMin (y :: t))

/-- Index of the first occurrence of the maximum (`np.argmax` tie rule:
earliest index wins). -/
def argmaxIdx : List ℚ → ℕ
  | [] => 0
  | [_] => 0
  | x :: y :: t => if listMax (y :: t) > x then argmaxIdx (y :: t) + 1 else 0

theorem listMax_cons (x : ℚ) (l : List ℚ) (h : l ≠ []) :
    listMax (x :: l) = max x (listMax l) := by
  cases l with
  | nil => cases h rfl
  | cons y t => rfl

theorem listMin_cons (x : ℚ) (l : List ℚ) (h : l ≠ []) :
    listMin (x :: l) = min x (listMin l) := by
  cases l with
  | nil => cases h rfl
  | cons y t => rfl

theorem getD_le_listMax (l : List ℚ) (i : ℕ) (hi : i < l.length) :
    l.getD i 0 ≤ listMax l := by
  induction l generalizing i with
  | nil => simp at hi
  | cons x t ih =>
    cases t with
    | nil =>
      cases i with
      | zero => simp [listMax]
      | succ j => simp at hi
    | cons y s =>
      rw [listMax_cons x (y :: s) (by simp)]
      cases i with
      | zero => simp
      | succ j =>
        have := ih j (by simpa using hi)
        simpa using le_trans this (le_max_right _ _)

theorem listMin_le_getD (l : List ℚ) (i : ℕ) (hi : i < l.length) :
    listMin l ≤ l.getD i 0 := by
  induction l generalizing i with
  | nil => simp at hi
  | cons x t ih =>
    cases t with
    | nil =>
      cases i with
      | zero => simp [listMin]
      | succ j => simp at hi
    | cons y s =>
      rw [listMin_cons x (y :: s) (by simp)]
      cases i with
      | zero => simp
      | succ j =>
        have := ih j (by simpa using hi)
        simpa using le_trans (min_le_right _ _) this

theorem argmaxIdx_lt_length (l : List ℚ) (h : l ≠ []) : argmaxIdx l < l.length := by
  induction l with
  | nil => cases h rfl
  | cons x t ih =>
    cases t with
    | nil => simp [argmaxIdx]
    | cons y s =>
      rw [show argmaxIdx (x :: y :: s)
            = if listMax (y :: s) > x then argmaxIdx (y :: s) + 1 else 0 from rfl]
      split
      · have := ih (by simp)
        simpa using Nat.succ_lt_succ this
      · simp

theorem getD_argmaxIdx (l : List ℚ) (h : l ≠ []) :
    l.getD (argmaxIdx l) 0 = listMax l := by
  induction l with
  | nil => cases h rfl
  | cons x t ih =>
    cases t with
    | nil => simp [argmaxIdx, listMax]
    | cons y s =>
      rw [show argmaxIdx (x :: y :: s)
            = if listMax (y :: s) > x then argmaxIdx (y :: s) + 1 else 0 from rfl,
          listMax_cons x (y :: s) (by simp)]
      split
      · rename_i hgt
        have := ih (by simp)
        simpa [max_eq_right (le_of_lt hgt)] using this
      · rename_i hle
        push_neg at hle
        simp [max_eq_left hle]

theorem getD_lt_of_lt_argmaxIdx (l : List ℚ) (i : ℕ) (hi : i < argmaxIdx l) :
    l.getD i 0 < listMax l := by
  induction l generalizing i with
  | nil => simp [argmaxIdx] at hi
  | cons x t ih =>
    cases t with
    | nil => simp [argmaxIdx] at hi
    | cons y s =>
      rw [show argmaxIdx (x :: y :: s)
            = if listMax (y :: s) > x then argmaxIdx (y :: s) + 1 else 0 from rfl] at hi
      rw [listMax_cons x (y :: s) (by simp)]
      by_cases hgt : listMax (y :: s) > x
      · simp only [if_pos hgt] at hi
        cases i with
        | zero => simpa [max_eq_right (le_of_lt hgt)] using hgt
        | succ j =>
          have := ih j (by omega)
          simpa [max_eq_right (le_of_lt hgt)] using this
      · simp [if_neg hgt] at hi

/-! ## ModelCache (`classification_service.py` lines 36-37, 107-115)

The python cache is an insertion-ordered `dict`; it is embedded as an
association list in insertion order.  `cachePut` mirrors lines 113-115:
when the current size has reached `_max_cache_size` the oldest entry
(`next(iter(...))`, i.e. the head) is popped, then the fresh key is
appended. -/

/-- `cache_key in self._svm_cache` / `self._svm_cache[cache_key]`. -/
def cacheGet {K V : Type} [DecidableEq K] (c : List (K × V)) (k : K) : Option V :=
  (c.find? (fun e => e.1 = k)).map (·.2)

/-- Lines 113-115: evict the oldest entry when at capacity, then insert. -/
def cachePut {K V : Type} (cap : ℕ) (c : List (K × V)) (k : K) (v : V) :
    List (K × V) :=
  (if cap ≤ c.length then c.drop 1 else c) ++ [(k, v)]

/-- Inserting a fresh key per request, starting from an empty cache. -/
def cacheOfKeys {K V : Type} (cap : ℕ) (f : K → V) (ks : List K) : List (K × V) :=
  ks.foldl (fun c k => cachePut cap c k (f k)) []

theorem cachePut_length_le {K V : Type} (cap : ℕ) (c : List (K × V)) (k : K) (v : V)
    (hcap : 1 ≤ cap) (h : c.length ≤ cap) :
    (cachePut cap c k v).length ≤ cap := by
  unfold cachePut
  split
  · rename_i hge
    have : cap = c.length := le_antisymm hge h
    simp [List.length_drop]
    omega
  · rename_i hlt
    push_neg at hlt
    simp
    omega

theorem cacheOfKeys_eq_drop {K V : Type} (cap : ℕ) (hcap : 1 ≤ cap) (f : K → V)
    (ks : List K) :
    cacheOfKeys cap f ks = (ks.map (fun k => (k, f k))).drop (ks.length - cap) := by
  induction ks using List.reverseRecOn with
  | nil => simp [cacheOfKeys]
  | append_singleton t k ih =>
    have hstep : cacheOfKeys cap f (t ++ [k])
        = cachePut cap (cacheOfKeys cap f t) k (f k) := by
      simp [cacheOfKeys, List.foldl_append]
    rw [hstep, ih]
    unfold cachePut
    have hlen : ((t.map (fun k => (k, f k))).drop (t.length - cap)).length
        = t.length - (t.length - cap) := by
      simp [List.length_drop]
    by_cases hc : cap ≤ t.length
    · have hcond : cap ≤ ((t.map (fun k => (k, f k))).drop (t.length - cap)).length := by
        rw [hlen]; omega
      rw [if_pos hcond, List.drop_drop]
      have harith : t.length + 1 - cap = 1 + (t.length - cap) := by omega
      simp only [List.map_append, List.map_cons, List.map_nil, harith]
      rw [List.drop_append_of_le_length (by simp; omega)]
      have hlen2 : (t ++ [k]).length - cap = t.length - cap + 1 := by simp; omega
      rw [hlen2]
    · push_neg at hc
      have hz : t.length - cap = 0 := by omega
      have hcond : ¬ cap ≤ ((t.map (fun k => (k, f k))).drop (t.length - cap)).length := by
        rw [hlen]; omega
      rw [if_neg hcond]
      have hz' : t.length + 1 - cap = 0 := by omega
      simp [hz, hz', List.map_append]

theorem cacheGet_map_of_mem {K V : Type} [DecidableEq K] (f : K → V) (l : List K)
    (k : K) (hnd : l.Nodup) (hm : k ∈ l) :
    cacheGet (l.map (fun k => (k, f k))) k = some (f k) := by
  induction l with
  | nil => simp at hm
  | cons x t ih =>
    by_cases hx : x = k
    · subst hx
      simp [cacheGet, List.find?]
    · have hm' : k ∈ t := by
        cases hm with
        | head => exact absurd rfl hx
        | tail _ h => exact h
      have := ih (List.Nodup.of_cons hnd) hm'
      simpa [cacheGet, List.find?, hx] using this

theorem cacheGet_map_of_not_mem {K V : Type} [DecidableEq K] (f : K → V) (l : List K)
    (k : K) (hm : k ∉ l) :
    cacheGet (l.map (fun k => (k, f k))) k = none := by
  induction l with
  | nil => simp [cacheGet]
  | cons x t ih =>
    have hx : x ≠ k := fun h => hm (h ▸ List.mem_cons_self x t)
    have hm' : k ∉ t := fun h => hm (List.mem_cons_of_mem x h)
    simpa [cacheGet, List.find?, hx] using ih hm'

/-- C5: the ModelCache never holds more than 100 entries (`_max_cache_size`),
and eviction is strictly first-in-first-out: after inserting 101 distinct
keys, exactly the first-inserted key misses on lookup and every other key
still hits. -/
theorem modelCache_capacity_fifo {K V : Type} [DecidableEq K] (f : K → V)
    (ks : List K) (hlen : ks.length = 101) (hnd : ks.Nodup) :
    (∀ (c : List (K × V)) (k : K) (v : V),
        c.length ≤ 100 → (cachePut 100 c k v).length ≤ 100) ∧
    (∀ ps : List K, (cacheOfKeys 100 f ps).length ≤ 100) ∧
    (∀ k ∈ ks.take 1, cacheGet (cacheOfKeys 100 f ks) k = none) ∧
    (∀ k ∈ ks.drop 1, cacheGet (cacheOfKeys 100 f ks) k = some (f k)) := by
  have hrepr : cacheOfKeys 100 f ks = ((ks.drop 1).map (fun k => (k, f k))) := by
    rw [cacheOfKeys_eq_drop 100 (by norm_num) f ks, hlen]
    norm_num
  refine ⟨fun c k v h => cachePut_length_le 100 c k v (by norm_num) h, ?_, ?_, ?_⟩
  · intro ps
    rw [cacheOfKeys_eq_drop 100 (by norm_num) f ps]
    simp [List.length_drop]
    omega
  · intro k hk
    rw [hrepr]
    apply cacheGet_map_of_not_mem
    exact fun hmem =>
      (List.disjoint_take_drop hnd (le_refl 1)) hk hmem
  · intro k hk
    rw [hrepr]
    exact cacheGet_map_of_mem f _ k ((List.drop_sublist 1 ks).nodup hnd) hk

theorem modelCache_capacity_fifo_witness :
    (∀ (c : List (ℕ × ℕ)) (k v : ℕ),
        c.length ≤ 100 → (cachePut 100 c k v).length ≤ 100) ∧
    (∀ ps : List ℕ, (cacheOfKeys 100 id ps).length ≤ 100) ∧
    (∀ k ∈ (List.range 101).take 1,
        cacheGet (cacheOfKeys 100 id (List.range 101)) k = none) ∧
    (∀ k ∈ (List.range 101).drop 1,
        cacheGet (cacheOfKeys 100 id (List.range 101)) k = some (id k)) :=
  modelCache_capacity_fifo id (List.range 101) (by simp) (List.nodup_range 101)

/-! ## HistogramBuilder (`svm_utils.py` lines 61-94)

`np.histogram(score_values, bins=60)` semantics in exact arithmetic:
the bin range is `[min, max]`, widened to `[min - 0.5, max + 0.5]` when
`min == max`; the 61 edges are equally spaced over that range; a score `x`
falls in bin `⌊(x - lo)·60/(hi - lo)⌋`, clamped to bin 59 (the final bin is
closed on the right).  All scores lie inside the range here, since the
range is computed from the same vector. -/

/-- Membership bound for `listMax`. -/
theorem le_listMax_of_mem {x : ℚ} {l : List ℚ} (h : x ∈ l) : x ≤ listMax l := by
  induction l with
  | nil => simp at h
  | cons y t ih =>
    cases t with
    | nil =>
      simp at h
      simp [h, listMax]
    | cons z s =>
      rw [listMax_cons y (z :: s) (by simp)]
      rcases List.mem_cons.mp h with h | h
      · simp [h]
      · exact le_trans (ih h) (le_max_right _ _)

/-- Membership bound for `listMin`. -/
theorem listMin_le_of_mem {x : ℚ} {l : List ℚ} (h : x ∈ l) : listMin l ≤ x := by
  induction l with
  | nil => simp at h
  | cons y t ih =>
    cases t with
    | nil =>
      simp at h
      simp [h, listMin]
    | cons z s =>
      rw [listMin_cons y (z :: s) (by simp)]
      rcases List.mem_cons.mp h with h | h
      · simp [h]
      · exact le_trans (min_le_right _ _) (ih h)

/-- numpy's histogram range: `[min, max]`, widened by `0.5` on both sides
when all values coincide. -/
def histRange (scores : List ℚ) : ℚ × ℚ :=
  let lo := listMin scores
  let hi := listMax scores
  if lo = hi then (lo - 1/2, hi + 1/2) else (lo, hi)

/-- The 61 equally spaced bin edges of `np.histogram(_, bins=60)`. -/
def histEdges (lo hi : ℚ) : List ℚ :=
  (List.range 61).map (fun k : ℕ => lo + (k : ℚ) * (hi - lo) / 60)

/-- Bin index of a score (final bin closed on the right). -/
def binIdx (lo hi : ℚ) (x : ℚ) : ℕ :=
  min 59 (Int.toNat ⌊(x - lo) * 60 / (hi - lo)⌋)

/-- Per-bin counts. -/
def histCounts (lo hi : ℚ) (scores : List ℚ) : List ℕ :=
  (List.range 60).map (fun k => (scores.filter (fun x => binIdx lo hi x = k)).length)

/-- `(bin_edges[:-1] + bin_edges[1:]) / 2`. -/
def midpoints (edges : List ℚ) : List ℚ :=
  List.zipWith (fun a b => (a + b) / 2) edges edges.tail

/-- `np.mean`. -/
def meanQ (l : List ℚ) : ℚ := l.sum / l.length

/-- `np.median`: middle of the sorted vector, average of the two middle
values for even length. -/
def medianQ (l : List ℚ) : ℚ :=
  if l.length % 2 = 1 then (l.insertionSort (· ≤ ·)).getD (l.length / 2) 0
  else ((l.insertionSort (· ≤ ·)).getD (l.length / 2 - 1) 0
    + (l.insertionSort (· ≤ ·)).getD (l.length / 2) 0) / 2

structure HistogramData where
  bins : List ℚ
  counts : List ℕ
  bin_edges : List ℚ
  deriving Repr, DecidableEq

structure HistogramStatistics where
  min : ℚ
  max : ℚ
  mean : ℚ
  median : ℚ
  deriving Repr, DecidableEq

structure CommitteeVoteInfo where
  svm_prediction : ℤ
  rf_prediction : ℤ
  mlp_prediction : ℤ
  vote_entropy : ℝ

structure SimilarityHistogramResponse where
  scores : List (ℤ × ℚ)
  histogram : HistogramData
  statistics : HistogramStatistics
  total_items : ℕ
  committee_votes : Option (List (ℤ × CommitteeVoteInfo))

/-- The explicit empty result of the degenerate paths. -/
def emptyHistogramResponse : SimilarityHistogramResponse :=
  { scores := []
    histogram := ⟨[], [], []⟩
    statistics := ⟨0, 0, 0, 0⟩
    total_items := 0
    committee_votes := none }

/-- `build_similarity_histogram_response` (`svm_utils.py` lines 61-94). -/
def buildSimilarityHistogramResponse (scoresDict : List (ℤ × ℚ))
    (scoreValues : List ℚ) (totalItems : ℕ)
    (committeeVotes : Option (List (ℤ × CommitteeVoteInfo))) :
    SimilarityHistogramResponse :=
  if scoreValues = [] then emptyHistogramResponse
  else
    let lo := (histRange scoreValues).1
    let hi := (histRange scoreValues).2
    let edges := histEdges lo hi
    { scores := scoresDict
      histogram := ⟨midpoints edges, histCounts lo hi scoreValues, edges⟩
      statistics :=
        ⟨listMin scoreValues, listMax scoreValues, meanQ scoreValues,
         medianQ scoreValues⟩
      total_items := totalItems
      committee_votes := committeeVotes }

theorem getD_map_range (f : ℕ → ℚ) (n k : ℕ) (h : k < n) :
    ((List.range n).map f).getD k 0 = f k := by
  rw [List.getD_eq_getElem _ _ (by simpa using h)]
  simp

theorem histEdges_getD (lo hi : ℚ) (k : ℕ) (h : k < 61) :
    (histEdges lo hi).getD k 0 = lo + k * (hi - lo) / 60 := by
  unfold histEdges
  exact getD_map_range _ 61 k h

theorem sum_map_range (g : ℕ → ℕ) (n : ℕ) :
    ((List.range n).map g).sum = ∑ k ∈ Finset.range n, g k := by
  induction n with
  | zero => simp
  | succ m ih => rw [List.range_succ, Finset.sum_range_succ]; simp [ih]

theorem sum_filter_length (l : List ℚ) (f : ℚ → ℕ) (m : ℕ)
    (h : ∀ x ∈ l, f x < m) :
    ∑ k ∈ Finset.range m, (l.filter (fun x => f x = k)).length = l.length := by
  induction l with
  | nil => simp
  | cons x t ih =>
    have hx : f x < m := h x (List.mem_cons_self x t)
    have ht : ∀ y ∈ t, f y < m := fun y hy => h y (List.mem_cons_of_mem x hy)
    have hsplit : ∀ k : ℕ, ((x :: t).filter (fun y => f y = k)).length
        = (if f x = k then 1 else 0) + (t.filter (fun y => f y = k)).length := by
      intro k
      by_cases hfk : f x = k <;> simp [List.filter_cons, hfk, Nat.add_comm]
    calc ∑ k ∈ Finset.range m, ((x :: t).filter (fun y => f y = k)).length
        = ∑ k ∈ Finset.range m,
            ((if f x = k then 1 else 0) + (t.filter (fun y => f y = k)).length) := by
          exact Finset.sum_congr rfl (fun k _ => hsplit k)
      _ = (∑ k ∈ Finset.range m, if f x = k then 1 else 0)
            + ∑ k ∈ Finset.range m, (t.filter (fun y => f y = k)).length := by
          rw [Finset.sum_add_distrib]
      _ = 1 + t.length := by
          rw [ih ht]
          congr 1
          rw [Finset.sum_ite_eq (Finset.range m) (f x) (fun _ => 1)]
          simp [Finset.mem_range.mpr hx]
      _ = (x :: t).length := by simp [Nat.add_comm]

theorem sum_le_length_mul_listMax (l : List ℚ) :
    l.sum ≤ l.length * listMax l := by
  induction l with
  | nil => simp
  | cons x t ih =>
    cases t with
    | nil => simp [listMax]
    | cons y s =>
      rw [listMax_cons x (y :: s) (by simp)]
      have h1 : x ≤ max x (listMax (y :: s)) := le_max_left _ _
      have h2 : listMax (y :: s) ≤ max x (listMax (y :: s)) := le_max_right _ _
      have h3 : ((y :: s).length : ℚ) * listMax (y :: s)
          ≤ ((y :: s).length : ℚ) * max x (listMax (y :: s)) := by
        apply mul_le_mul_of_nonneg_left h2
        positivity
      have := le_trans ih h3
      simp only [List.sum_cons, List.length_cons] at this ⊢
      push_cast
      push_cast at this
      nlinarith [this, h1]

theorem length_mul_listMin_le_sum (l : List ℚ) :
    l.length * listMin l ≤ l.sum := by
  induction l with
  | nil => simp
  | cons x t ih =>
    cases t with
    | nil => simp [listMin]
    | cons y s =>
      rw [listMin_cons x (y :: s) (by simp)]
      have h1 : min x (listMin (y :: s)) ≤ x := min_le_left _ _
      have h2 : min x (listMin (y :: s)) ≤ listMin (y :: s) := min_le_right _ _
      have h3 : ((y :: s).length : ℚ) * min x (listMin (y :: s))
          ≤ ((y :: s).length : ℚ) * listMin (y :: s) := by
        apply mul_le_mul_of_nonneg_left h2
        positivity
      have := le_trans h3 ih
      simp only [List.sum_cons, List.length_cons] at this ⊢
      push_cast
      push_cast at this
      nlinarith [this, h1]

theorem listMin_le_meanQ (l : List ℚ) (h : l ≠ []) : listMin l ≤ meanQ l := by
  have hlen : 0 < (l.length : ℚ) := by
    simp [List.length_pos]
    exact h
  rw [meanQ, le_div_iff hlen]
  have := length_mul_listMin_le_sum l
  linarith [this]

theorem meanQ_le_listMax (l : List ℚ) (h : l ≠ []) : meanQ l ≤ listMax l := by
  have hlen : 0 < (l.length : ℚ) := by
    simp [List.length_pos]
    exact h
  rw [meanQ, div_le_iff hlen]
  have := sum_le_length_mul_listMax l
  linarith [this]

theorem sorted_getD_mem (l : List ℚ) (i : ℕ) (hi : i < l.length) :
    (l.insertionSort (· ≤ ·)).getD i 0 ∈ l := by
  have hperm : (l.insertionSort (· ≤ ·)).Perm l := l.perm_insertionSort (· ≤ ·)
  have hlen : (l.insertionSort (· ≤ ·)).length = l.length := hperm.length_eq
  have hi' : i < (l.insertionSort (· ≤ ·)).length := by omega
  rw [List.getD_eq_getElem _ _ hi']
  exact hperm.mem_iff.mp (List.getElem_mem hi')

theorem listMin_le_medianQ (l : List ℚ) (h : l ≠ []) : listMin l ≤ medianQ l := by
  have hpos : 0 < l.length := List.length_pos.mpr h
  unfold medianQ
  split
  · exact listMin_le_of_mem (sorted_getD_mem l _ (by omega))
  · rename_i hodd
    have h2 : 2 ≤ l.length := by omega
    have ha := listMin_le_of_mem (sorted_getD_mem l (l.length / 2 - 1) (by omega))
    have hb := listMin_le_of_mem (sorted_getD_mem l (l.length / 2) (by omega))
    linarith

theorem medianQ_le_listMax (l : List ℚ) (h : l ≠ []) : medianQ l ≤ listMax l := by
  have hpos : 0 < l.length := List.length_pos.mpr h
  unfold medianQ
  split
  · exact le_listMax_of_mem (sorted_getD_mem l _ (by omega))
  · rename_i hodd
    have h2 : 2 ≤ l.length := by omega
    have ha := le_listMax_of_mem (sorted_getD_mem l (l.length / 2 - 1) (by omega))
    have hb := le_listMax_of_mem (sorted_getD_mem l (l.length / 2) (by omega))
    linarith

theorem midpoints_getD (e : List ℚ) (k : ℕ) (h : k + 1 < e.length) :
    (midpoints e).getD k 0 = (e.getD k 0 + e.getD (k + 1) 0) / 2 := by
  have hk : k < (midpoints e).length := by
    simp [midpoints, List.length_zipWith, List.length_tail]
    omega
  rw [List.getD_eq_getElem _ _ hk, List.getD_eq_getElem _ _ (by omega),
      List.getD_eq_getElem _ _ h]
  simp [midpoints, List.getElem_zipWith, List.getElem_tail]

/-- The full specification of `build_similarity_histogram_response` on a
non-empty score vector, as established by `histogramBuilder_spec`. -/
def HistogramBuilderSpec (d : List (ℤ × ℚ)) (v : List ℚ) (t : ℕ)
    (cv : Option (List (ℤ × CommitteeVoteInfo))) : Prop :=
  (∀ (d' : List (ℤ × ℚ)) (t' : ℕ) (cv' : Option (List (ℤ × CommitteeVoteInfo))),
      buildSimilarityHistogramResponse d' [] t' cv' = emptyHistogramResponse) ∧
  (buildSimilarityHistogramResponse d v t cv).histogram.bin_edges.length = 61 ∧
  (buildSimilarityHistogramResponse d v t cv).histogram.counts.length = 60 ∧
  (buildSimilarityHistogramResponse d v t cv).histogram.bins.length = 60 ∧
  (∀ k < 60,
      (buildSimilarityHistogramResponse d v t cv).histogram.bin_edges.getD (k + 1) 0
        - (buildSimilarityHistogramResponse d v t cv).histogram.bin_edges.getD k 0
      = ((histRange v).2 - (histRange v).1) / 60) ∧
  (listMin v < listMax v →
      (buildSimilarityHistogramResponse d v t cv).histogram.bin_edges.getD 0 0 = listMin v ∧
      (buildSimilarityHistogramResponse d v t cv).histogram.bin_edges.getD 60 0 = listMax v) ∧
  (listMin v = listMax v →
      (buildSimilarityHistogramResponse d v t cv).histogram.bin_edges.getD 0 0
        = listMin v - 1/2 ∧
      (buildSimilarityHistogramResponse d v t cv).histogram.bin_edges.getD 60 0
        = listMax v + 1/2) ∧
  (∀ k < 60,
      (buildSimilarityHistogramResponse d v t cv).histogram.bins.getD k 0
      = ((buildSimilarityHistogramResponse d v t cv).histogram.bin_edges.getD k 0
          + (buildSimilarityHistogramResponse d v t cv).histogram.bin_edges.getD (k + 1) 0)
        / 2) ∧
  (buildSimilarityHistogramResponse d v t cv).histogram.counts.sum = v.length ∧
  (buildSimilarityHistogramResponse d v t cv).statistics.min = listMin v ∧
  (buildSimilarityHistogramResponse d v t cv).statistics.max = listMax v ∧
  (buildSimilarityHistogramResponse d v t cv).statistics.mean = meanQ v ∧
  (buildSimilarityHistogramResponse d v t cv).statistics.median = medianQ v ∧
  listMin v ≤ meanQ v ∧ meanQ v ≤ listMax v ∧
  listMin v ≤ medianQ v ∧ medianQ v ≤ listMax v

/-- C8 (amended): the empty score vector gives the all-empty, all-zero
summary; a non-empty vector gives 61 edges, 60 equal-width bins whose
centers are the midpoints of adjacent edges, counts summing to the number
of scores, and min / max / mean / interpolated median computed from the
raw unbinned scores with min ≤ mean, median ≤ max.  The bins span
`[min, max]` when min < max; when all scores are equal numpy widens the
range to `[min - 0.5, max + 0.5]` (this last point is where the original
claim fails). -/
theorem histogramBuilder_spec (d : List (ℤ × ℚ)) (v : List ℚ) (t : ℕ)
    (cv : Option (List (ℤ × CommitteeVoteInfo))) (hne : v ≠ []) :
    HistogramBuilderSpec d v t cv := by
  have hbranch : buildSimilarityHistogramResponse d v t cv
      = { scores := d
          histogram := ⟨midpoints (histEdges (histRange v).1 (histRange v).2),
            histCounts (histRange v).1 (histRange v).2 v,
            histEdges (histRange v).1 (histRange v).2⟩
          statistics := ⟨listMin v, listMax v, meanQ v, medianQ v⟩
          total_items := t
          committee_votes := cv } := by
    rw [buildSimilarityHistogramResponse, if_neg hne]
  have hedgelen : (histEdges (histRange v).1 (histRange v).2).length = 61 := by
    simp [histEdges]
  refine ⟨?_, ?_, ?_, ?_, ?_, ?_, ?_, ?_, ?_, ?_, ?_, ?_, ?_, ?_, ?_, ?_, ?_⟩
  · intro d' t' cv'
    rw [buildSimilarityHistogramResponse, if_pos rfl]
  · rw [hbranch]; exact hedgelen
  · rw [hbranch]; simp [histCounts]
  · rw [hbranch]
    simp [midpoints, List.length_zipWith, List.length_tail, hedgelen]
  · intro k hk
    rw [hbranch]
    simp only
    rw [histEdges_getD _ _ (k + 1) (by omega), histEdges_getD _ _ k (by omega)]
    push_cast
    ring
  · intro hlt
    have hne' : (histRange v).1 = listMin v ∧ (histRange v).2 = listMax v := by
      rw [histRange, if_neg (ne_of_lt hlt)]
      exact ⟨rfl, rfl⟩
    rw [hbranch]
    simp only
    rw [histEdges_getD _ _ 0 (by omega), histEdges_getD _ _ 60 (by omega),
        hne'.1, hne'.2]
    constructor
    · push_cast; ring
    · push_cast; ring
  · intro heq
    have hr : (histRange v).1 = listMin v - 1/2 ∧ (histRange v).2 = listMax v + 1/2 := by
      rw [histRange, if_pos heq]
      exact ⟨rfl, rfl⟩
    rw [hbranch]
    simp only
    rw [histEdges_getD _ _ 0 (by omega), histEdges_getD _ _ 60 (by omega),
        hr.1, hr.2, heq]
    constructor
    · push_cast; ring
    · push_cast; ring
  · intro k hk
    rw [hbranch]
    simp only
    exact midpoints_getD _ k (by omega)
  · rw [hbranch]
    simp only [histCounts]
    rw [sum_map_range]
    exact sum_filter_length v _ 60 (fun x _ => by simp [binIdx])
  · rw [hbranch]
  · rw [hbranch]
  · rw [hbranch]
  · rw [hbranch]
  · exact listMin_le_meanQ v hne
  · exact meanQ_le_listMax v hne
  · exact listMin_le_medianQ v hne
  · exact medianQ_le_listMax v hne

theorem histogramBuilder_spec_witness :
    ([(1 : ℚ), 3] ≠ []) ∧ HistogramBuilderSpec [(1, 1), (2, 3)] [1, 3] 2 none :=
  ⟨by decide, histogramBuilder_spec [(1, 1), (2, 3)] [1, 3] 2 none (by decide)⟩

/-- C8, counterexample to the original claim: on the constant score vector
`[5]` the bins do not span `[min, max] = [5, 5]`; numpy widens the range,
so the first bin edge is `4.5` while the reported minimum is `5`. -/
theorem histogramBuilder_constant_counterexample :
    (buildSimilarityHistogramResponse [(1, 5)] [5] 1 none).statistics.min = 5 ∧
    (buildSimilarityHistogramResponse [(1, 5)] [5] 1 none).histogram.bin_edges.getD 0 0
      = 9/2 := by
  constructor
  · rw [buildSimilarityHistogramResponse, if_neg (by decide)]
    simp [listMin]
  · rw [buildSimilarityHistogramResponse, if_neg (by decide)]
    simp only
    rw [show histRange [5] = (9/2, 11/2) from by norm_num [histRange, listMin, listMax]]
    rw [histEdges_getD _ _ 0 (by omega)]
    push_cast
    ring

/-! ## StandardScaler (sklearn, used by `svm_utils.py` and
`committee_service.py`)

`fit` records per-column mean and population standard deviation (a
zero deviation is replaced by 1, sklearn's `_handle_zeros_in_scale`);
`transform` maps `x ↦ (x - mean) / scale` per column.  `ratSqrt` is the
square root on `ℚ`, exact on the perfect-square variances that every
concrete instance in this file uses. -/

def ratSqrt (q : ℚ) : ℚ := (Nat.sqrt q.num.toNat : ℚ) / (Nat.sqrt q.den : ℚ)

def numCols (M : List (List ℚ)) : ℕ := (M.headD []).length

def colMean (M : List (List ℚ)) (j : ℕ) : ℚ := meanQ (M.map (fun r => r.getD j 0))

def colVar (M : List (List ℚ)) (j : ℕ) : ℚ :=
  meanQ (M.map (fun r => (r.getD j 0 - colMean M j) ^ 2))

def colScale (M : List (List ℚ)) (j : ℕ) : ℚ :=
  if colVar M j = 0 then 1 else ratSqrt (colVar M j)

structure ScalerParams where
  means : List ℚ
  scales : List ℚ
  deriving Repr, DecidableEq

def fitScaler (M : List (List ℚ)) : ScalerParams :=
  ⟨(List.range (numCols M)).map (colMean M),
   (List.range (numCols M)).map (colScale M)⟩

def scalerTransformRow (p : ScalerParams) (r : List ℚ) : List ℚ :=
  (List.range p.means.length).map
    (fun j => (r.getD j 0 - p.means.getD j 0) / p.scales.getD j 1)

def scalerTransform (p : ScalerParams) (M : List (List ℚ)) : List (List ℚ) :=
  M.map (scalerTransformRow p)

/-! ## CommitteeService (`committee_service.py`)

The sklearn `RandomForestClassifier` and the torch `WeightedMLPClassifier`
are opaque to the service: it only calls `fit` (which may raise, caught on
lines 75-77 and 88-90 and converted to `None`) and `predict`.  They are
parameters of the embedding; a raising `fit` is an `Except.error`, and a
fitted model is represented by its prediction vector on the scored
matrix. -/

/-- `n_est = max(10, min(100, n // 2))` (`_train_rf`, line 67). -/
def rfNumEstimators (n : ℕ) : ℕ := max 10 (min 100 (n / 2))

/-- `depth = min(5, max(2, int(np.log2(n + 1))))` (`_train_rf`, line 68). -/
def rfMaxDepth (n : ℕ) : ℕ := min 5 (max 2 (Nat.log2 (n + 1)))

/-- `hidden = (16,) if n < 20 else (32, 16)` (`_train_mlp`, line 81). -/
def mlpHiddenSizes (n : ℕ) : List ℕ := if n < 20 then [16] else [32, 16]

/-- `CommitteeService.train_committee` (lines 39-63): below the
minimum-support threshold (3 samples in either class) no model is trained;
otherwise the committee scaler is fitted on the raw training matrix and
the two auxiliary fits run on the scaled matrix, any exception being
converted to an absent model (`_train_rf` / `_train_mlp` catch blocks). -/
def trainCommittee {RF MLP : Type}
    (fitRf : List (List ℚ) → List ℤ → List ℚ → ℕ → ℕ → Except String RF)
    (fitMlp : List (List ℚ) → List ℤ → List ℚ → List ℕ → Except String MLP)
    (X : List (List ℚ)) (y : List ℤ) (w : List ℚ) :
    Option RF × Option MLP × Option ScalerParams :=
  if y.count 1 < 3 ∨ y.count 0 < 3 then (none, none, none)
  else
    let n := y.length
    let sc := fitScaler X
    let Xs := scalerTransform sc X
    ((fitRf Xs y w (rfNumEstimators n) (rfMaxDepth n)).toOption,
     (fitMlp Xs y w (mlpHiddenSizes n)).toOption,
     some sc)

/-- Vote entropy of lines 121-122: counts of the two outcomes among the
three votes, `-Σ (c/3)·log2(c/3)` over the outcomes with positive count. -/
noncomputable def voteEntropy (votes : List ℤ) : ℝ :=
  (([votes.count 0, votes.count 1].filter (fun p => 0 < p)).map
    (fun p => -((p : ℝ) / 3) * Real.logb 2 ((p : ℝ) / 3))).sum

structure CommitteePrediction where
  svm_prediction : ℤ
  rf_prediction : ℤ
  mlp_prediction : ℤ
  vote_entropy : ℝ

/-- `svm_preds = (svm_scores > 0).astype(int)` (line 102). -/
def svmPredsOf (svmScores : List ℚ) : List ℤ :=
  svmScores.map (fun s => if 0 < s then 1 else 0)

/-- `CommitteeService.predict_with_committee` (lines 92-130), with the two
fitted models abstracted by their prediction vectors on the scored matrix
(`rf_model.predict(X_scaled)` / `mlp_model.predict(X_scaled)`). -/
noncomputable def predictWithCommittee (svmScores : List ℚ)
    (rfPreds mlpPreds : Option (List ℤ)) : List CommitteePrediction :=
  match rfPreds, mlpPreds with
  | none, none => (svmPredsOf svmScores).map (fun p => ⟨p, p, p, 0⟩)
  | _, _ =>
      let rf := rfPreds.getD (svmPredsOf svmScores)
      let mlp := mlpPreds.getD (svmPredsOf svmScores)
      (List.range svmScores.length).map (fun i =>
        ⟨(svmPredsOf svmScores).getD i 0, rf.getD i 0, mlp.getD i 0,
         voteEntropy [(svmPredsOf svmScores).getD i 0, rf.getD i 0, mlp.getD i 0]⟩)

/-- The committee record reported for item `i`. -/
noncomputable def predAt (svmScores : List ℚ) (rfPreds mlpPreds : Option (List ℤ)) (i : ℕ) :
    CommitteePrediction :=
  (predictWithCommittee svmScores rfPreds mlpPreds).getD i ⟨0, 0, 0, 0⟩

theorem logb_two_third : Real.logb 2 ((1 : ℝ) / 3) = -Real.logb 2 3 := by
  rw [one_div, Real.logb_inv]

theorem logb_two_two_thirds : Real.logb 2 ((2 : ℝ) / 3) = 1 - Real.logb 2 3 := by
  rw [Real.logb_div (by norm_num) (by norm_num)]
  rw [Real.logb_self_eq_one (by norm_num)]

theorem one_le_logb_two_three : (1 : ℝ) ≤ Real.logb 2 3 := by
  have h : Real.logb 2 2 ≤ Real.logb 2 3 :=
    Real.logb_le_logb_of_le (by norm_num)
      (by norm_num : (0 : ℝ) < 2) (by norm_num : (2 : ℝ) ≤ 3)
  rw [Real.logb_self_eq_one (by norm_num)] at h
  exact h

/-- Entropy of three binary votes: `0` on full agreement, otherwise the
1-2 split value `log2 3 - 2/3`. -/
theorem voteEntropy_binary (a b c : ℤ)
    (ha : a = 0 ∨ a = 1) (hb : b = 0 ∨ b = 1) (hc : c = 0 ∨ c = 1) :
    voteEntropy [a, b, c]
      = if a = b ∧ b = c then 0 else Real.logb 2 3 - 2 / 3 := by
  have hsplit12 : -((1 : ℝ) / 3) * Real.logb 2 ((1 : ℝ) / 3)
      + -((2 : ℝ) / 3) * Real.logb 2 ((2 : ℝ) / 3) = Real.logb 2 3 - 2 / 3 := by
    rw [logb_two_third, logb_two_two_thirds]; ring
  rcases ha with rfl | rfl <;> rcases hb with rfl | rfl <;> rcases hc with rfl | rfl <;>
    simp only [voteEntropy, List.count_cons, List.count_nil] <;>
    norm_num <;>
    rw [← hsplit12] <;> norm_num <;> ring

theorem voteEntropy_binary_nonneg (a b c : ℤ)
    (ha : a = 0 ∨ a = 1) (hb : b = 0 ∨ b = 1) (hc : c = 0 ∨ c = 1) :
    0 ≤ voteEntropy [a, b, c] ∧ voteEntropy [a, b, c] ≤ Real.logb 2 3 := by
  rw [voteEntropy_binary a b c ha hb hc]
  have := one_le_logb_two_three
  split <;> constructor <;> linarith

theorem getD_map_lt {α β : Type} (f : α → β) (l : List α) (i : ℕ) (d : β)
    (hi : i < l.length) :
    (l.map f).getD i d = f (l.get ⟨i, hi⟩) := by
  rw [List.getD_eq_getElem _ _ (by simpa using hi)]
  simp

/-- The per-item committee record specification established by
`committee_votes_entropy`. -/
def CommitteeVoteSpec (svmScores : List ℚ) (rfPreds mlpPreds : Option (List ℤ))
    (i : ℕ) : Prop :=
  (predictWithCommittee svmScores rfPreds mlpPreds).length = svmScores.length ∧
  (predAt svmScores rfPreds mlpPreds i).svm_prediction
    = (if 0 < svmScores.getD i 0 then 1 else 0) ∧
  (predAt svmScores rfPreds mlpPreds i).vote_entropy
    = voteEntropy [(predAt svmScores rfPreds mlpPreds i).svm_prediction,
        (predAt svmScores rfPreds mlpPreds i).rf_prediction,
        (predAt svmScores rfPreds mlpPreds i).mlp_prediction] ∧
  ((predAt svmScores rfPreds mlpPreds i).vote_entropy = 0 ↔
      ((predAt svmScores rfPreds mlpPreds i).svm_prediction
          = (predAt svmScores rfPreds mlpPreds i).rf_prediction ∧
        (predAt svmScores rfPreds mlpPreds i).rf_prediction
          = (predAt svmScores rfPreds mlpPreds i).mlp_prediction)) ∧
  (rfPreds = none → mlpPreds = none →
      (predAt svmScores rfPreds mlpPreds i).rf_prediction
        = (predAt svmScores rfPreds mlpPreds i).svm_prediction ∧
      (predAt svmScores rfPreds mlpPreds i).mlp_prediction
        = (predAt svmScores rfPreds mlpPreds i).svm_prediction ∧
      (predAt svmScores rfPreds mlpPreds i).vote_entropy = 0) ∧
  0 ≤ (predAt svmScores rfPreds mlpPreds i).vote_entropy ∧
  (predAt svmScores rfPreds mlpPreds i).vote_entropy ≤ Real.logb 2 3

theorem getD_lt_eq_get {α : Type} (l : List α) (i : ℕ) (d : α) (hi : i < l.length) :
    l.getD i d = l.get ⟨i, hi⟩ := by
  rw [List.getD_eq_getElem _ _ hi]
  rfl

theorem getD_mem_of_lt {α : Type} (l : List α) (i : ℕ) (d : α) (hi : i < l.length) :
    l.getD i d ∈ l := by
  rw [List.getD_eq_getElem _ _ hi]
  exact List.getElem_mem hi

theorem getD_map_range_gen {β : Type} (g : ℕ → β) (n i : ℕ) (d : β) (hi : i < n) :
    ((List.range n).map g).getD i d = g i := by
  rw [List.getD_eq_getElem _ _ (by simpa using hi)]
  simp

theorem svmPredsOf_binary (s : List ℚ) : ∀ v ∈ svmPredsOf s, v = 0 ∨ v = 1 := by
  intro v hv
  rcases List.mem_map.mp hv with ⟨x, _, rfl⟩
  by_cases h : 0 < x <;> simp [h]

theorem svmPredsOf_length (s : List ℚ) : (svmPredsOf s).length = s.length := by
  simp [svmPredsOf]

theorem svmPredsOf_getD (s : List ℚ) (i : ℕ) (hi : i < s.length) :
    (svmPredsOf s).getD i 0 = if 0 < s.getD i 0 then 1 else 0 := by
  rw [svmPredsOf, getD_map_lt _ _ i _ hi, getD_lt_eq_get s i 0 hi]

theorem committee_pred_props (a b c : ℤ)
    (ha : a = 0 ∨ a = 1) (hb : b = 0 ∨ b = 1) (hc : c = 0 ∨ c = 1) :
    (voteEntropy [a, b, c] = 0 ↔ (a = b ∧ b = c)) ∧
    0 ≤ voteEntropy [a, b, c] ∧ voteEntropy [a, b, c] ≤ Real.logb 2 3 := by
  have hl := one_le_logb_two_three
  rw [voteEntropy_binary a b c ha hb hc]
  by_cases hagree : a = b ∧ b = c
  · rw [if_pos hagree]
    exact ⟨by simp [hagree], le_refl 0, by linarith⟩
  · rw [if_neg hagree]
    have hne : Real.logb 2 3 - 2 / 3 ≠ 0 := ne_of_gt (by linarith)
    exact ⟨⟨fun h0 => absurd h0 hne, fun h => absurd h hagree⟩,
      by linarith, by linarith⟩

/-- C3: the reported margin vote is `1` iff the margin score is positive;
the entropy is the two-outcome count formula over the three votes; it is
`0` exactly when the three votes agree (when both auxiliary classifiers
are absent all three recorded votes are the margin vote and the entropy
is exactly `0`), and it always lies in `[0, log2 3]`. -/
theorem committee_votes_entropy (svmScores : List ℚ)
    (rfPreds mlpPreds : Option (List ℤ))
    (hrf : ∀ l, rfPreds = some l →
        (∀ v ∈ l, v = 0 ∨ v = 1) ∧ l.length = svmScores.length)
    (hmlp : ∀ l, mlpPreds = some l →
        (∀ v ∈ l, v = 0 ∨ v = 1) ∧ l.length = svmScores.length)
    (i : ℕ) (hi : i < svmScores.length) :
    CommitteeVoteSpec svmScores rfPreds mlpPreds i := by
  have hlogb := one_le_logb_two_three
  have hip : i < (svmPredsOf svmScores).length := by
    rw [svmPredsOf_length]; exact hi
  have hsbin : (svmPredsOf svmScores).getD i 0 = 0 ∨ (svmPredsOf svmScores).getD i 0 = 1 :=
    svmPredsOf_binary svmScores _ (getD_mem_of_lt _ i 0 hip)
  rcases rfPreds with _ | l₁ <;> rcases mlpPreds with _ | l₂
  · -- both auxiliary classifiers absent: lines 105-113
    have hpred : predAt svmScores none none i
        = ⟨(svmPredsOf svmScores).get ⟨i, hip⟩, (svmPredsOf svmScores).get ⟨i, hip⟩,
           (svmPredsOf svmScores).get ⟨i, hip⟩, 0⟩ := by
      rw [predAt, show predictWithCommittee svmScores none none
            = (svmPredsOf svmScores).map (fun p => ⟨p, p, p, 0⟩) from rfl,
          getD_map_lt _ _ i _ hip]
    have hgbin : (svmPredsOf svmScores).get ⟨i, hip⟩ = 0
        ∨ (svmPredsOf svmScores).get ⟨i, hip⟩ = 1 :=
      svmPredsOf_binary svmScores _ (List.get_mem _ _ hip)
    have hzero : voteEntropy [(svmPredsOf svmScores).get ⟨i, hip⟩,
        (svmPredsOf svmScores).get ⟨i, hip⟩, (svmPredsOf svmScores).get ⟨i, hip⟩] = 0 := by
      rw [voteEntropy_binary _ _ _ hgbin hgbin hgbin]
      simp
    refine ⟨by simp [predictWithCommittee, svmPredsOf], ?_, ?_, ?_, ?_, ?_, ?_⟩
    · rw [hpred]
      simp only
      rw [← svmPredsOf_getD svmScores i hi]
      exact (getD_lt_eq_get (svmPredsOf svmScores) i 0 hip).symm
    · rw [hpred, hzero]
    · rw [hpred]
      simp
    · intro _ _
      rw [hpred]
      exact ⟨rfl, rfl, rfl⟩
    · rw [hpred]
    · rw [hpred]
      show (0 : ℝ) ≤ Real.logb 2 3
      linarith
  · -- MLP present, RF absent
    obtain ⟨hbin₂, hlen₂⟩ := hmlp l₂ rfl
    have hb₂ : l₂.getD i 0 = 0 ∨ l₂.getD i 0 = 1 :=
      hbin₂ _ (getD_mem_of_lt _ i 0 (by omega))
    have hpred : predAt svmScores none (some l₂) i
        = ⟨(svmPredsOf svmScores).getD i 0, (svmPredsOf svmScores).getD i 0,
           l₂.getD i 0, voteEntropy [(svmPredsOf svmScores).getD i 0,
             (svmPredsOf svmScores).getD i 0, l₂.getD i 0]⟩ := by
      rw [predAt, show predictWithCommittee svmScores none (some l₂)
            = (List.range svmScores.length).map (fun j =>
                ⟨(svmPredsOf svmScores).getD j 0, (svmPredsOf svmScores).getD j 0,
                 l₂.getD j 0, voteEntropy [(svmPredsOf svmScores).getD j 0,
                   (svmPredsOf svmScores).getD j 0, l₂.getD j 0]⟩) from rfl,
          getD_map_range_gen _ _ i _ hi]
    obtain ⟨hiff, h0, h1⟩ := committee_pred_props _ _ _ hsbin hsbin hb₂
    refine ⟨by simp [predictWithCommittee], ?_, ?_, ?_, ?_, ?_, ?_⟩
    · rw [hpred]
      simp only
      rw [svmPredsOf_getD svmScores i hi]
    · rw [hpred]
    · rw [hpred]
      exact hiff
    · intro _ hcon
      exact absurd hcon (by simp)
    · rw [hpred]
      exact h0
    · rw [hpred]
      exact h1
  · -- RF present, MLP absent
    obtain ⟨hbin₁, hlen₁⟩ := hrf l₁ rfl
    have hb₁ : l₁.getD i 0 = 0 ∨ l₁.getD i 0 = 1 :=
      hbin₁ _ (getD_mem_of_lt _ i 0 (by omega))
    have hpred : predAt svmScores (some l₁) none i
        = ⟨(svmPredsOf svmScores).getD i 0, l₁.getD i 0,
           (svmPredsOf svmScores).getD i 0, voteEntropy [(svmPredsOf svmScores).getD i 0,
             l₁.getD i 0, (svmPredsOf svmScores).getD i 0]⟩ := by
      rw [predAt, show predictWithCommittee svmScores (some l₁) none
            = (List.range svmScores.length).map (fun j =>
                ⟨(svmPredsOf svmScores).getD j 0, l₁.getD j 0,
                 (svmPredsOf svmScores).getD j 0, voteEntropy [(svmPredsOf svmScores).getD j 0,
                   l₁.getD j 0, (svmPredsOf svmScores).getD j 0]⟩) from rfl,
          getD_map_range_gen _ _ i _ hi]
    obtain ⟨hiff, h0, h1⟩ := committee_pred_props _ _ _ hsbin hb₁ hsbin
    refine ⟨by simp [predictWithCommittee], ?_, ?_, ?_, ?_, ?_, ?_⟩
    · rw [hpred]
      simp only
      rw [svmPredsOf_getD svmScores i hi]
    · rw [hpred]
    · rw [hpred]
      exact hiff
    · intro hcon _
      exact absurd hcon (by simp)
    · rw [hpred]
      exact h0
    · rw [hpred]
      exact h1
  · -- both present
    obtain ⟨hbin₁, hlen₁⟩ := hrf l₁ rfl
    obtain ⟨hbin₂, hlen₂⟩ := hmlp l₂ rfl
    have hb₁ : l₁.getD i 0 = 0 ∨ l₁.getD i 0 = 1 :=
      hbin₁ _ (getD_mem_of_lt _ i 0 (by omega))
    have hb₂ : l₂.getD i 0 = 0 ∨ l₂.getD i 0 = 1 :=
      hbin₂ _ (getD_mem_of_lt _ i 0 (by omega))
    have hpred : predAt svmScores (some l₁) (some l₂) i
        = ⟨(svmPredsOf svmScores).getD i 0, l₁.getD i 0, l₂.getD i 0,
           voteEntropy [(svmPredsOf svmScores).getD i 0, l₁.getD i 0, l₂.getD i 0]⟩ := by
      rw [predAt, show predictWithCommittee svmScores (some l₁) (some l₂)
            = (List.range svmScores.length).map (fun j =>
                ⟨(svmPredsOf svmScores).getD j 0, l₁.getD j 0, l₂.getD j 0,
                 voteEntropy [(svmPredsOf svmScores).getD j 0, l₁.getD j 0,
                   l₂.getD j 0]⟩) from rfl,
          getD_map_range_gen _ _ i _ hi]
    obtain ⟨hiff, h0, h1⟩ := committee_pred_props _ _ _ hsbin hb₁ hb₂
    refine ⟨by simp [predictWithCommittee], ?_, ?_, ?_, ?_, ?_, ?_⟩
    · rw [hpred]
      simp only
      rw [svmPredsOf_getD svmScores i hi]
    · rw [hpred]
    · rw [hpred]
      exact hiff
    · intro hcon _
      exact absurd hcon (by simp)
    · rw [hpred]
      exact h0
    · rw [hpred]
      exact h1

theorem committee_votes_entropy_witness :
    CommitteeVoteSpec [1, -1] (some [1, 1]) (some [0, 1]) 0 :=
  committee_votes_entropy [1, -1] (some [1, 1]) (some [0, 1])
    (by intro l h; injection h with h; subst h; exact ⟨by decide, by decide⟩)
    (by intro l h; injection h with h; subst h; exact ⟨by decide, by decide⟩)
    0 (by decide)

/-- The behaviour of `train_committee` established by
`committee_min_support_and_catch`: below the 3-per-class threshold nothing
is trained; above it the result is exactly the (caught) outcome of the two
auxiliary fits on the scaled matrix, with every fit exception converted to
an absent model. -/
def CommitteeTrainSpec {RF MLP : Type}
    (fitRf : List (List ℚ) → List ℤ → List ℚ → ℕ → ℕ → Except String RF)
    (fitMlp : List (List ℚ) → List ℤ → List ℚ → List ℕ → Except String MLP)
    (X : List (List ℚ)) (y : List ℤ) (w : List ℚ) : Prop :=
  ((y.count 1 < 3 ∨ y.count 0 < 3) →
      trainCommittee fitRf fitMlp X y w = (none, none, none)) ∧
  (3 ≤ y.count 1 → 3 ≤ y.count 0 →
      trainCommittee fitRf fitMlp X y w
        = ((fitRf (scalerTransform (fitScaler X) X) y w
              (rfNumEstimators y.length) (rfMaxDepth y.length)).toOption,
           (fitMlp (scalerTransform (fitScaler X) X) y w
              (mlpHiddenSizes y.length)).toOption,
           some (fitScaler X))) ∧
  (∀ e, fitRf (scalerTransform (fitScaler X) X) y w
      (rfNumEstimators y.length) (rfMaxDepth y.length) = Except.error e →
      (trainCommittee fitRf fitMlp X y w).1 = none) ∧
  (∀ e, fitMlp (scalerTransform (fitScaler X) X) y w (mlpHiddenSizes y.length)
      = Except.error e →
      (trainCommittee fitRf fitMlp X y w).2.1 = none)

/-- C9: committee training returns no model at all when either class has
fewer than 3 samples, and converts any internal fit failure of the tree
ensemble or the neural classifier into an absent member instead of an
error. -/
theorem committee_min_support_and_catch {RF MLP : Type}
    (fitRf : List (List ℚ) → List ℤ → List ℚ → ℕ → ℕ → Except String RF)
    (fitMlp : List (List ℚ) → List ℤ → List ℚ → List ℕ → Except String MLP)
    (X : List (List ℚ)) (y : List ℤ) (w : List ℚ) :
    CommitteeTrainSpec fitRf fitMlp X y w := by
  refine ⟨?_, ?_, ?_, ?_⟩
  · intro h
    rw [trainCommittee, if_pos h]
  · intro h1 h0
    rw [trainCommittee, if_neg (by omega)]
  · intro e he
    by_cases h : y.count 1 < 3 ∨ y.count 0 < 3
    · rw [trainCommittee, if_pos h]
    · rw [trainCommittee, if_neg h]
      simp only
      rw [he]
      rfl
  · intro e he
    by_cases h : y.count 1 < 3 ∨ y.count 0 < 3
    · rw [trainCommittee, if_pos h]
    · rw [trainCommittee, if_neg h]
      simp only
      rw [he]
      rfl

theorem committee_min_support_and_catch_witness :
    CommitteeTrainSpec
      (fun _ _ _ _ _ => (Except.error "rf fit diverged" : Except String Unit))
      (fun _ _ _ _ => (Except.ok () : Except String Unit))
      [[0], [0], [0], [1], [1], [1]] [1, 1, 1, 0, 0, 0] [1, 1, 1, 1, 1, 1] :=
  committee_min_support_and_catch _ _ _ _ _

/-! ## ColdStartService (`cold_start_service.py`)

`_kennard_stone` compares Euclidean distances (`np.linalg.norm`) only
through `argmax` and `min`; since `Real.sqrt` is strictly monotone, the
selected indices are identical when squared distances are used instead,
so the embedding works with exact squared distances over `ℚ`. -/

/-- Squared Euclidean distance between two rows. -/
def sqDist (u v : List ℚ) : ℚ := (List.zipWith (fun a b => (a - b) ^ 2) u v).sum

/-- Entry `(i, j)` of the pairwise (squared) distance matrix `dist`. -/
def rowDist (X : List (List ℚ)) (i j : ℕ) : ℚ := sqDist (X.getD i []) (X.getD j [])

/-- The distance matrix flattened in row-major order (`np.argmax` flattens
this way before `np.unravel_index`). -/
def flatDists (X : List (List ℚ)) : List ℚ :=
  ((List.range X.length).map (fun i => (List.range X.length).map (rowDist X i))).join

/-- `np.unravel_index(np.argmax(dist), dist.shape)` (line 56). -/
def seedPair (X : List (List ℚ)) : ℕ × ℕ :=
  (argmaxIdx (flatDists X) / X.length, argmaxIdx (flatDists X) % X.length)

/-- `dist[selected].min(axis=0)` at a single column. -/
def minDistTo (X : List (List ℚ)) (sel : List ℕ) (c : ℕ) : ℚ :=
  listMin (sel.map (fun s => rowDist X s c))

/-- `min_dists` after `min_dists[selected] = -1` (lines 60-61). -/
def maskedDists (X : List (List ℚ)) (sel : List ℕ) : List ℚ :=
  (List.range X.length).map
    (fun c => if c ∈ sel then -1 else minDistTo X sel c)

/-- The `while len(selected) < n` loop (lines 59-62), one appended index
per iteration. -/
def ksGrow (X : List (List ℚ)) : ℕ → List ℕ → List ℕ
  | 0, sel => sel
  | steps + 1, sel => ksGrow X steps (sel ++ [argmaxIdx (maskedDists X sel)])

/-- `ColdStartService._kennard_stone` (lines 49-64). -/
def kennardStone (X : List (List ℚ)) (k : ℕ) : List ℕ :=
  if X.length ≤ k then List.range X.length
  else ksGrow X (k - 2) [(seedPair X).1, (seedPair X).2]

/-- `ColdStartService.get_suggestions` (lines 24-47).  The feature store
is the metrics table (`metricsLoaded` = the metrics file was present,
`haveCols` = at least one metric column); the seeded `random.sample`
fallback of `_random_fallback` is an opaque parameter, unused on the
feature path. -/
def getSuggestions (table : List (ℤ × List ℚ)) (metricsLoaded haveCols : Bool)
    (fallback : List ℤ → ℕ → List ℤ) (blockIds : List ℤ) (k : ℕ) : List ℤ :=
  let rows := table.filter (fun r => r.1 ∈ blockIds)
  if ¬metricsLoaded ∨ rows = [] ∨ ¬haveCols then fallback blockIds k
  else
    let idList := rows.map (fun r => r.1)
    let matrix := rows.map (fun r => r.2)
    let scaled := scalerTransform (fitScaler matrix) matrix
    let indices := kennardStone scaled (min k idList.length)
    indices.map (fun i => idList.getD i 0)

theorem scalerTransform_length (p : ScalerParams) (M : List (List ℚ)) :
    (scalerTransform p M).length = M.length := by
  simp [scalerTransform]

theorem ksGrow_length (X : List (List ℚ)) :
    ∀ (steps : ℕ) (sel : List ℕ), (ksGrow X steps sel).length = sel.length + steps := by
  intro steps
  induction steps with
  | zero => intro sel; rfl
  | succ m ih =>
    intro sel
    rw [ksGrow, ih]
    simp
    omega

theorem map_getD_range_self (l : List ℤ) :
    (List.range l.length).map (fun i => l.getD i 0) = l := by
  apply List.ext_getElem
  · simp
  · intro i h1 h2
    simp only [List.getElem_map, List.getElem_range]
    rw [List.getD_eq_getElem _ _ h2]

/-- C2 (amended): when feature data is available, the diversity-sample
operation returns `min(k, n)` identifiers for every desired count `k ≥ 2`
(and for every `k ≥ n`); in particular for `k ≥ n` it returns exactly the
full candidate list (in feature-table order).  For `k ≤ 1 < n` the
Kennard-Stone seeding still returns its 2-point seed, which is where the
original unrestricted claim fails. -/
theorem diversity_sample_length (table : List (ℤ × List ℚ))
    (fallback : List ℤ → ℕ → List ℤ) (blockIds : List ℤ) (k : ℕ)
    (hr : table.filter (fun r => r.1 ∈ blockIds) ≠ []) :
    ((2 ≤ k ∨ (table.filter (fun r => r.1 ∈ blockIds)).length ≤ k) →
      (getSuggestions table true true fallback blockIds k).length
        = min k (table.filter (fun r => r.1 ∈ blockIds)).length) ∧
    ((table.filter (fun r => r.1 ∈ blockIds)).length ≤ k →
      getSuggestions table true true fallback blockIds k
        = (table.filter (fun r => r.1 ∈ blockIds)).map (fun r => r.1)) := by
  have hred : getSuggestions table true true fallback blockIds k
      = (kennardStone
          (scalerTransform
            (fitScaler ((table.filter (fun r => r.1 ∈ blockIds)).map (fun r => r.2)))
            ((table.filter (fun r => r.1 ∈ blockIds)).map (fun r => r.2)))
          (min k ((table.filter (fun r => r.1 ∈ blockIds)).map (fun r => r.1)).length)).map
          (fun i => ((table.filter (fun r => r.1 ∈ blockIds)).map (fun r => r.1)).getD i 0) := by
    rw [getSuggestions]
    rw [if_neg (by simp [hr])]
  have hslen : (scalerTransform
      (fitScaler ((table.filter (fun r => r.1 ∈ blockIds)).map (fun r => r.2)))
      ((table.filter (fun r => r.1 ∈ blockIds)).map (fun r => r.2))).length
      = (table.filter (fun r => r.1 ∈ blockIds)).length := by
    rw [scalerTransform_length, List.length_map]
  have hilen : ((table.filter (fun r => r.1 ∈ blockIds)).map (fun r => r.1)).length
      = (table.filter (fun r => r.1 ∈ blockIds)).length := List.length_map _ _
  constructor
  · intro hk
    rw [hred, List.length_map]
    by_cases hnk : (table.filter (fun r => r.1 ∈ blockIds)).length ≤ k
    · rw [kennardStone, if_pos (by rw [hslen]; omega), List.length_range, hslen]
      omega
    · push_neg at hnk
      have h2 : 2 ≤ k := by
        rcases hk with h | h
        · exact h
        · omega
      rw [kennardStone, if_neg (by rw [hslen]; omega), ksGrow_length]
      simp only [List.length_cons, List.length_nil, hilen]
      omega
  · intro hnk
    rw [hred, kennardStone, if_pos (by rw [hslen]; omega), hslen, ← hilen,
        map_getD_range_self]

/-- C2, counterexample to the original claim: two candidates with feature
rows and desired count `k = 1`; the operation returns both identifiers
(the Kennard-Stone seed pair), not `min(1, 2) = 1` of them. -/
theorem diversity_sample_length_counterexample :
    (getSuggestions [(1, [0]), (2, [1])] true true
        (fun ids n => ids.take n) [1, 2] 1).length = 2 ∧ ¬(2 = min 1 2) := by
  constructor
  · rw [getSuggestions]
    rw [if_neg (by simp)]
    rw [List.length_map, kennardStone, if_neg (by simp [scalerTransform]),
        ksGrow_length]
    rfl
  · decide

theorem diversity_sample_length_witness :
    ([((1 : ℤ), [(0 : ℚ)]), (2, [1]), (3, [5])].filter (fun r => r.1 ∈ [(1 : ℤ), 2, 3]) ≠ []) ∧
    (((2 ≤ 2 ∨ ([((1 : ℤ), [(0 : ℚ)]), (2, [1]), (3, [5])].filter
          (fun r => r.1 ∈ [(1 : ℤ), 2, 3])).length ≤ 2) →
        (getSuggestions [((1 : ℤ), [(0 : ℚ)]), (2, [1]), (3, [5])] true true
            (fun ids n => ids.take n) [1, 2, 3] 2).length
          = min 2 ([((1 : ℤ), [(0 : ℚ)]), (2, [1]), (3, [5])].filter
              (fun r => r.1 ∈ [(1 : ℤ), 2, 3])).length) ∧
      (([((1 : ℤ), [(0 : ℚ)]), (2, [1]), (3, [5])].filter
          (fun r => r.1 ∈ [(1 : ℤ), 2, 3])).length ≤ 2 →
        getSuggestions [((1 : ℤ), [(0 : ℚ)]), (2, [1]), (3, [5])] true true
            (fun ids n => ids.take n) [1, 2, 3] 2
          = ([((1 : ℤ), [(0 : ℚ)]), (2, [1]), (3, [5])].filter
              (fun r => r.1 ∈ [(1 : ℤ), 2, 3])).map (fun r => r.1))) :=
  ⟨by decide,
   diversity_sample_length [(1, [0]), (2, [1]), (3, [5])]
     (fun ids n => ids.take n) [1, 2, 3] 2 (by decide)⟩

theorem sqDist_cons (a b : ℚ) (u v : List ℚ) :
    sqDist (a :: u) (b :: v) = (a - b) ^ 2 + sqDist u v := by
  simp [sqDist]

theorem sqDist_nonneg (u v : List ℚ) : 0 ≤ sqDist u v := by
  induction u generalizing v with
  | nil => simp [sqDist]
  | cons a u ih =>
    cases v with
    | nil => simp [sqDist]
    | cons b v =>
      rw [sqDist_cons]
      have := ih v
      nlinarith [sq_nonneg (a - b)]

theorem sqDist_self (u : List ℚ) : sqDist u u = 0 := by
  induction u with
  | nil => simp [sqDist]
  | cons a u ih => rw [sqDist_cons, ih]; ring

theorem rowDist_nonneg (X : List (List ℚ)) (i j : ℕ) : 0 ≤ rowDist X i j :=
  sqDist_nonneg _ _

theorem rowDist_self (X : List (List ℚ)) (i : ℕ) : rowDist X i i = 0 :=
  sqDist_self _

theorem listMin_nonneg (l : List ℚ) (h : ∀ x ∈ l, 0 ≤ x) : 0 ≤ listMin l := by
  induction l with
  | nil => simp [listMin]
  | cons x t ih =>
    cases t with
    | nil => simpa [listMin] using h x (List.mem_cons_self x [])
    | cons y s =>
      rw [listMin_cons x (y :: s) (by simp)]
      exact le_min (h x (List.mem_cons_self _ _))
        (ih (fun z hz => h z (List.mem_cons_of_mem x hz)))

theorem join_getD {α : Type} (d : α) (n : ℕ) :
    ∀ (L : List (List α)) (a b : ℕ), (∀ l ∈ L, l.length = n) →
      a < L.length → b < n →
      L.join.getD (a * n + b) d = (L.getD a []).getD b d := by
  intro L
  induction L with
  | nil =>
    intro a b _ ha _
    simp at ha
  | cons x t ih =>
    intro a b hlen ha hb
    have hx : x.length = n := hlen x (List.mem_cons_self _ _)
    cases a with
    | zero =>
      rw [show (x :: t).join = x ++ t.join from rfl, Nat.zero_mul, Nat.zero_add,
          List.getD_append _ _ _ _ (by omega)]
      rfl
    | succ a =>
      rw [show (x :: t).join = x ++ t.join from rfl,
          List.getD_append_right _ _ _ _ (by
            rw [hx]
            calc n ≤ a * n + n := by omega
              _ = (a + 1) * n + 0 := by ring
              _ ≤ (a + 1) * n + b := by omega)]
      have harith : (a + 1) * n + b - x.length = a * n + b := by
        rw [hx]
        have : (a + 1) * n = a * n + n := by ring
        omega
      rw [harith]
      have := ih a b (fun l hl => hlen l (List.mem_cons_of_mem x hl))
        (by simpa using ha) hb
      rw [this]
      rfl

theorem flatDists_length (X : List (List ℚ)) :
    (flatDists X).length = X.length * X.length := by
  rw [flatDists, List.length_join]
  have : ((List.range X.length).map
      (fun i => (List.range X.length).map (rowDist X i))).map List.length
      = (List.range X.length).map (fun _ => X.length) := by
    rw [List.map_map]
    exact List.map_congr_left (fun i _ => by simp)
  rw [this, sum_map_range]
  simp [Finset.sum_const, Finset.card_range, Nat.mul_comm]

theorem flatDists_getD (X : List (List ℚ)) (a b : ℕ)
    (ha : a < X.length) (hb : b < X.length) :
    (flatDists X).getD (a * X.length + b) 0 = rowDist X a b := by
  rw [flatDists, join_getD 0 X.length _ a b
        (by intro l hl; rcases List.mem_map.mp hl with ⟨i, _, rfl⟩; simp)
        (by simpa using ha) hb,
      getD_map_range_gen _ _ a _ ha, getD_map_range_gen _ _ b _ hb]

/-- `c` is the point the greedy loop must pick next: unselected, in range,
of maximal minimum distance to the selected set, with ties broken by the
lowest index (`np.argmax` returns the first maximum). -/
def IsBestNext (X : List (List ℚ)) (sel : List ℕ) (c : ℕ) : Prop :=
  c < X.length ∧ c ∉ sel ∧
  (∀ j, j < X.length → j ∉ sel → minDistTo X sel j ≤ minDistTo X sel c) ∧
  (∀ j, j < c → j ∉ sel → minDistTo X sel j < minDistTo X sel c)

/-- `(i, j)` attains the maximal pairwise (squared) distance, and is the
first such pair in row-major scan order. -/
def IsMaxSeedPair (X : List (List ℚ)) (i j : ℕ) : Prop :=
  i < X.length ∧ j < X.length ∧
  (∀ a, a < X.length → ∀ b, b < X.length → rowDist X a b ≤ rowDist X i j) ∧
  (∀ a, a < X.length → ∀ b, b < X.length →
    a * X.length + b < i * X.length + j → rowDist X a b < rowDist X i j)

theorem exists_unselected (n : ℕ) (sel : List ℕ) (hlen : sel.length < n) :
    ∃ c, c < n ∧ c ∉ sel := by
  by_contra h
  push_neg at h
  have hsub : Finset.range n ⊆ sel.toFinset := by
    intro c hc
    rw [List.mem_toFinset]
    exact h c (Finset.mem_range.mp hc)
  have h1 := Finset.card_le_card hsub
  rw [Finset.card_range] at h1
  have h2 : sel.toFinset.card ≤ sel.length := sel.toFinset_card_le
  omega

theorem maskedDists_length (X : List (List ℚ)) (sel : List ℕ) :
    (maskedDists X sel).length = X.length := by
  simp [maskedDists]

theorem maskedDists_getD (X : List (List ℚ)) (sel : List ℕ) (c : ℕ)
    (hc : c < X.length) :
    (maskedDists X sel).getD c 0
      = if c ∈ sel then -1 else minDistTo X sel c :=
  getD_map_range_gen _ _ c _ hc

theorem minDistTo_nonneg (X : List (List ℚ)) (sel : List ℕ) (c : ℕ) :
    0 ≤ minDistTo X sel c := by
  apply listMin_nonneg
  intro x hx
  rcases List.mem_map.mp hx with ⟨s, _, rfl⟩
  exact rowDist_nonneg X s c

/-- One iteration of the Kennard-Stone loop appends exactly the best next
point. -/
theorem bestNext_argmax (X : List (List ℚ)) (sel : List ℕ)
    (hlen : sel.length < X.length) :
    IsBestNext X sel (argmaxIdx (maskedDists X sel)) := by
  have hn : 0 < X.length := by omega
  have hmdlen : (maskedDists X sel).length = X.length := maskedDists_length X sel
  have hmdne : maskedDists X sel ≠ [] := by
    intro h
    rw [h] at hmdlen
    simp at hmdlen
    omega
  have hj : argmaxIdx (maskedDists X sel) < X.length := by
    rw [← hmdlen]
    exact argmaxIdx_lt_length _ hmdne
  have hval : (maskedDists X sel).getD (argmaxIdx (maskedDists X sel)) 0
      = listMax (maskedDists X sel) := getD_argmaxIdx _ hmdne
  obtain ⟨c0, hc0n, hc0sel⟩ := exists_unselected X.length sel hlen
  have hmdc0 : (maskedDists X sel).getD c0 0 = minDistTo X sel c0 := by
    rw [maskedDists_getD X sel c0 hc0n, if_neg hc0sel]
  have hmax0 : 0 ≤ listMax (maskedDists X sel) := by
    have h1 := getD_le_listMax (maskedDists X sel) c0 (by omega)
    rw [hmdc0] at h1
    exact le_trans (minDistTo_nonneg X sel c0) h1
  have hjnot : argmaxIdx (maskedDists X sel) ∉ sel := by
    intro hjin
    rw [maskedDists_getD X sel _ hj, if_pos hjin] at hval
    linarith
  have hjval : (maskedDists X sel).getD (argmaxIdx (maskedDists X sel)) 0
      = minDistTo X sel (argmaxIdx (maskedDists X sel)) := by
    rw [maskedDists_getD X sel _ hj, if_neg hjnot]
  refine ⟨hj, hjnot, ?_, ?_⟩
  · intro c hc hcsel
    have h1 := getD_le_listMax (maskedDists X sel) c (by omega)
    rw [maskedDists_getD X sel c hc, if_neg hcsel] at h1
    rw [← hval, hjval] at h1
    exact h1
  · intro c hc hcsel
    have h1 := getD_lt_of_lt_argmaxIdx (maskedDists X sel) c hc
    rw [maskedDists_getD X sel c (lt_trans hc hj), if_neg hcsel] at h1
    rw [← hval, hjval] at h1
    exact h1

/-- Invariant of the `while` loop: each appended index is the best next
point of the prefix before it, indices stay in range and duplicate-free. -/
theorem ksGrow_spec (X : List (List ℚ)) :
    ∀ (steps : ℕ) (sel : List ℕ), sel.Nodup → (∀ s ∈ sel, s < X.length) →
      sel.length + steps ≤ X.length →
      ∃ ext : List ℕ,
        ksGrow X steps sel = sel ++ ext ∧ ext.length = steps ∧
        (sel ++ ext).Nodup ∧ (∀ s ∈ sel ++ ext, s < X.length) ∧
        (∀ m, sel.length ≤ m → m < sel.length + steps →
          IsBestNext X ((sel ++ ext).take m) ((sel ++ ext).getD m 0)) := by
  intro steps
  induction steps with
  | zero =>
    intro sel hnd hb _
    exact ⟨[], by simp [ksGrow], rfl, by simpa using hnd, by simpa using hb,
      fun m hm1 hm2 => absurd hm2 (by omega)⟩
  | succ steps ih =>
    intro sel hnd hb hcap
    obtain ⟨hjn, hjnot, hmax, hfirst⟩ :=
      bestNext_argmax X sel (by omega)
    have hnd' : (sel ++ [argmaxIdx (maskedDists X sel)]).Nodup := by
      rw [List.nodup_append]
      refine ⟨hnd, List.nodup_singleton _, ?_⟩
      intro a ha hb'
      simp at hb'
      subst hb'
      exact hjnot ha
    have hb' : ∀ s ∈ sel ++ [argmaxIdx (maskedDists X sel)], s < X.length := by
      intro s hs
      rcases List.mem_append.mp hs with h | h
      · exact hb s h
      · simp at h
        subst h
        exact hjn
    obtain ⟨ext, heq, hextlen, hnd2, hb2, hprop⟩ :=
      ih (sel ++ [argmaxIdx (maskedDists X sel)]) hnd' hb' (by simp; omega)
    refine ⟨argmaxIdx (maskedDists X sel) :: ext, ?_, by simp [hextlen], ?_, ?_, ?_⟩
    · rw [ksGrow, heq]
      simp
    · rw [show sel ++ argmaxIdx (maskedDists X sel) :: ext
          = (sel ++ [argmaxIdx (maskedDists X sel)]) ++ ext from by simp]
      exact hnd2
    · rw [show sel ++ argmaxIdx (maskedDists X sel) :: ext
          = (sel ++ [argmaxIdx (maskedDists X sel)]) ++ ext from by simp]
      exact hb2
    · intro m hm1 hm2
      rw [show sel ++ argmaxIdx (maskedDists X sel) :: ext
          = (sel ++ [argmaxIdx (maskedDists X sel)]) ++ ext from by simp]
      by_cases hm : m = sel.length
      · subst hm
        have htake : ((sel ++ [argmaxIdx (maskedDists X sel)]) ++ ext).take sel.length
            = sel := by
          rw [List.take_append_of_le_length (by simp),
              List.take_append_of_le_length (by simp), List.take_length]
        have hgetD : ((sel ++ [argmaxIdx (maskedDists X sel)]) ++ ext).getD sel.length 0
            = argmaxIdx (maskedDists X sel) := by
          rw [List.getD_append _ _ _ _ (by simp),
              List.getD_append_right _ _ _ _ (le_refl _)]
          simp
        rw [htake, hgetD]
        exact ⟨hjn, hjnot, hmax, hfirst⟩
      · exact hprop m (by simp; omega) (by simp; omega)

/-- The Kennard-Stone selection specification established by
`kennard_stone_spec`. -/
def KennardStoneSpec (X : List (List ℚ)) (k : ℕ) : Prop :=
  (kennardStone X k).length = k ∧
  (kennardStone X k).Nodup ∧
  (∀ i ∈ kennardStone X k, i < X.length) ∧
  (k < X.length →
    (kennardStone X k).take 2 = [(seedPair X).1, (seedPair X).2] ∧
    IsMaxSeedPair X (seedPair X).1 (seedPair X).2 ∧
    (∀ m, 2 ≤ m → m < k →
      IsBestNext X ((kennardStone X k).take m) ((kennardStone X k).getD m 0)))

/-- C6 (amended): for `2 ≤ k ≤ n` and a feature matrix whose rows are not
all identical (some pair at positive distance), Kennard-Stone returns `k`
distinct valid indices; when `k < n` its first two points are the
row-major-first pair of maximal pairwise distance and every later point is
the first unselected point of maximal minimum distance to the selection.
(When `k = n` the code returns `range(n)` without seeding, and on an
all-identical matrix the seed degenerates to `(0, 0)` — the two points
where the original claim fails.) -/
theorem kennard_stone_spec (X : List (List ℚ)) (k : ℕ)
    (h2 : 2 ≤ k) (hkn : k ≤ X.length)
    (hpos : ∃ a, a < X.length ∧ ∃ b, b < X.length ∧ 0 < rowDist X a b) :
    KennardStoneSpec X k := by
  by_cases hk : X.length ≤ k
  · have hkeq : k = X.length := le_antisymm hkn hk
    rw [KennardStoneSpec, kennardStone, if_pos hk]
    exact ⟨by simp [hkeq], List.nodup_range _, by simp,
      fun hlt => absurd hlt (by omega)⟩
  · push_neg at hk
    have hn : 0 < X.length := by omega
    have hflatlen : (flatDists X).length = X.length * X.length := flatDists_length X
    have hflatne : flatDists X ≠ [] := by
      intro h
      have hp : 0 < X.length * X.length := Nat.mul_pos hn hn
      rw [h] at hflatlen
      simp only [List.length_nil] at hflatlen
      omega
    have hidx : argmaxIdx (flatDists X) < X.length * X.length := by
      rw [← hflatlen]
      exact argmaxIdx_lt_length _ hflatne
    have hi : (seedPair X).1 < X.length := Nat.div_lt_of_lt_mul hidx
    have hj : (seedPair X).2 < X.length := Nat.mod_lt _ hn
    have hdecomp : (seedPair X).1 * X.length + (seedPair X).2
        = argmaxIdx (flatDists X) := by
      rw [seedPair]
      simp only
      rw [Nat.mul_comm]
      exact Nat.div_add_mod _ _
    have hpairlt : ∀ a, a < X.length → ∀ b, b < X.length →
        a * X.length + b < X.length * X.length := by
      intro a ha b hb
      calc a * X.length + b < a * X.length + X.length := by omega
        _ = (a + 1) * X.length := by ring
        _ ≤ X.length * X.length := Nat.mul_le_mul_right _ (by omega)
    have hseedval : (flatDists X).getD (argmaxIdx (flatDists X)) 0
        = rowDist X (seedPair X).1 (seedPair X).2 := by
      rw [← hdecomp, flatDists_getD X _ _ hi hj]
    have hmax : ∀ a, a < X.length → ∀ b, b < X.length →
        rowDist X a b ≤ rowDist X (seedPair X).1 (seedPair X).2 := by
      intro a ha b hb
      have h1 := getD_le_listMax (flatDists X) (a * X.length + b)
        (by rw [hflatlen]; exact hpairlt a ha b hb)
      rw [flatDists_getD X a b ha hb] at h1
      rw [← hseedval, getD_argmaxIdx _ hflatne]
      exact h1
    have hfirstp : ∀ a, a < X.length → ∀ b, b < X.length →
        a * X.length + b < (seedPair X).1 * X.length + (seedPair X).2 →
        rowDist X a b < rowDist X (seedPair X).1 (seedPair X).2 := by
      intro a ha b hb hlt
      rw [hdecomp] at hlt
      have h1 := getD_lt_of_lt_argmaxIdx (flatDists X) _ hlt
      rw [flatDists_getD X a b ha hb] at h1
      rw [← hseedval, getD_argmaxIdx _ hflatne]
      exact h1
    have hij : (seedPair X).1 ≠ (seedPair X).2 := by
      intro heq
      obtain ⟨a, ha, b, hb, hab⟩ := hpos
      have h1 := hmax a ha b hb
      rw [heq, rowDist_self] at h1
      linarith
    obtain ⟨ext, heq, hextlen, hnd, hb, hprop⟩ :=
      ksGrow_spec X (k - 2) [(seedPair X).1, (seedPair X).2]
        (by simp [hij])
        (by
          intro s hs
          rcases List.mem_cons.mp hs with rfl | hs
          · exact hi
          · simp at hs
            subst hs
            exact hj)
        (by simp; omega)
    have hred : kennardStone X k
        = [(seedPair X).1, (seedPair X).2] ++ ext := by
      rw [kennardStone, if_neg (by omega), heq]
    rw [KennardStoneSpec, hred]
    refine ⟨by simp [hextlen]; omega,
      by rw [← heq, heq]; exact hnd,
      by rw [← heq, heq]; exact hb, fun _ => ⟨?_, ⟨hi, hj, hmax, hfirstp⟩, ?_⟩⟩
    · rw [List.take_append_of_le_length (by simp)]
      rfl
    · intro m hm2 hmk
      have := hprop m (by simpa using hm2) (by simp; omega)
      simpa using this

/-- C6, counterexample to the original claim: on three identical rows with
`k = 2` the flattened all-zero distance matrix makes `np.argmax` return
index 0, `np.unravel_index` gives the seed pair `(0, 0)`, and the returned
selection `[0, 0]` is not duplicate-free; and with `k = n = 3` the code
returns `range(3) = [0, 1, 2]` whose first two points `(0, 1)` are not a
maximum-distance pair (rows 0 and 2 are strictly farther apart). -/
theorem kennard_stone_counterexample :
    kennardStone [[0], [0], [0]] 2 = [0, 0] ∧
    ¬ ([0, 0] : List ℕ).Nodup ∧
    kennardStone [[0], [1], [10]] 3 = [0, 1, 2] ∧
    rowDist [[0], [1], [10]] 0 1 < rowDist [[0], [1], [10]] 0 2 := by
  have hflat : flatDists [[0], [0], [0]] = [0, 0, 0, 0, 0, 0, 0, 0, 0] := by
    norm_num [flatDists, List.range_succ, rowDist, sqDist]
  have hargmax : argmaxIdx (flatDists [[0], [0], [0]]) = 0 := by
    rw [hflat]
    norm_num [argmaxIdx, listMax]
  have hseed : seedPair [[0], [0], [0]] = (0, 0) := by
    rw [seedPair, hargmax]
    norm_num
  refine ⟨?_, by decide, ?_, ?_⟩
  · rw [kennardStone, if_neg (by norm_num), hseed]
    rfl
  · rw [kennardStone, if_pos (by norm_num)]
    rfl
  · norm_num [rowDist, sqDist]

theorem kennard_stone_spec_witness : KennardStoneSpec [[0], [1], [10]] 2 :=
  kennard_stone_spec [[0], [1], [10]] 2 (by decide) (by decide)
    ⟨0, by decide, 1, by decide, by norm_num [rowDist, sqDist]⟩

/-! ## ClassificationService (`classification_service.py`, `svm_utils.py`)

The sklearn `SVC` is opaque: the service calls `fit` on the scaled
training matrix and `decision_function` on scaled candidate rows; both are
parameters.  The md5 hex digest of `_cache_key` is modelled by the sorted
pair lists themselves (the digest is injective by the spec's
"hash-strength digest suffices" assumption).  The two weight constants
are modelled from the spec: `constants.py` (`CLICK_WEIGHT`,
`THRESHOLD_WEIGHT`) is not part of the sources, and the spec only says the
two tiers map to distinct numeric sample weights, so both stay
parameters. -/

inductive Source where
  | click
  | threshold
  deriving Repr, DecidableEq

/-- Position of the `source` literal in the string order used by python's
tuple sort (`"click" < "threshold"`). -/
def Source.rank : Source → ℕ
  | .click => 0
  | .threshold => 1

structure WeightedBlockId where
  id : ℤ
  source : Source
  deriving Repr, DecidableEq

structure SimilarityHistogramRequest where
  selected_items : List WeightedBlockId
  rejected_items : List WeightedBlockId
  block_ids : List ℤ
  deriving Repr, DecidableEq

/-- `sorted([(i.id, i.source) for i in items])`: stable ascending sort by
the lexicographic tuple order. -/
def sortPairs (l : List (ℤ × Source)) : List (ℤ × Source) :=
  l.insertionSort
    (fun a b => a.1 < b.1 ∨ (a.1 = b.1 ∧ a.2.rank ≤ b.2.rank))

/-- `ClassificationService._cache_key` (lines 153-156), with the md5 hex
digest modelled injectively by the sorted pair lists themselves. -/
def cacheKeyOf (selected rejected : List WeightedBlockId) :
    List (ℤ × Source) × List (ℤ × Source) :=
  (sortPairs (selected.map (fun i => (i.id, i.source))),
   sortPairs (rejected.map (fun i => (i.id, i.source))))

/-- The feature store: `metricsTable = none` models a missing
`metrics.parquet`; each row is a block's zero-filled metric vector;
`metricColumnsNonempty` models `metric_columns ≠ []`. -/
structure DataStore where
  metricsTable : Option (List (ℤ × List ℚ))
  metricColumnsNonempty : Bool

/-- `ClassificationService._extract_metrics` (lines 39-53). -/
def extractMetrics (ds : DataStore) (blockIds : List ℤ) :
    Option (List (ℤ × List ℚ)) :=
  match ds.metricsTable with
  | none => none
  | some t =>
      let rows := t.filter (fun r => r.1 ∈ blockIds)
      if rows.length = 0 then none
      else if ¬ds.metricColumnsNonempty then none
      else some rows

/-- python `dict` assignment `d[k] = v`: overwrite in place, else append. -/
def dictInsert (d : List (ℤ × ℚ)) (k : ℤ) (v : ℚ) : List (ℤ × ℚ) :=
  if d.any (fun e => e.1 = k) then
    d.map (fun e => if e.1 = k then (k, v) else e)
  else d ++ [(k, v)]

/-- python `d.get(k, default)`. -/
def dictGet (d : List (ℤ × ℚ)) (k : ℤ) (default : ℚ) : ℚ :=
  match d.find? (fun e => e.1 = k) with
  | some e => e.2
  | none => default

/-- `CLICK_WEIGHT if item.source == "click" else THRESHOLD_WEIGHT`. -/
def weightOf (clickW thresholdW : ℚ) : Source → ℚ
  | .click => clickW
  | .threshold => thresholdW

/-- The two `id_to_weight` loops of lines 74-82: selected items first,
then rejected items overwriting any shared identifier. -/
def buildIdToWeight (clickW thresholdW : ℚ)
    (selected rejected : List WeightedBlockId) : List (ℤ × ℚ) :=
  rejected.foldl
    (fun d item => dictInsert d item.id (weightOf clickW thresholdW item.source))
    (selected.foldl
      (fun d item => dictInsert d item.id (weightOf clickW thresholdW item.source))
      [])

/-- `train_svm_model` (`svm_utils.py` lines 24-50): stack the two classes,
fit the scaler on the combined raw matrix, fit the SVC on the scaled one. -/
def trainSvmModel {SvmModel : Type}
    (svmFit : List (List ℚ) → List ℤ → List ℚ → SvmModel)
    (selVectors rejVectors : List (List ℚ)) (selWeights rejWeights : List ℚ) :
    SvmModel × ScalerParams :=
  let X := selVectors ++ rejVectors
  let y : List ℤ :=
    List.replicate selVectors.length 1 ++ List.replicate rejVectors.length 0
  let w := selWeights ++ rejWeights
  (svmFit (scalerTransform (fitScaler X) X) y w, fitScaler X)

/-- `score_with_svm` (`svm_utils.py` lines 53-58). -/
def scoreWithSvm {SvmModel : Type} (svmDecision : SvmModel → List ℚ → ℚ)
    (model : SvmModel) (scaler : ScalerParams) (M : List (List ℚ)) : List ℚ :=
  (scalerTransform scaler M).map (svmDecision model)

/-- `ids = metrics_df["block_id"]` (line 49). -/
def rowIdsOf (rows : List (ℤ × List ℚ)) : List ℤ := rows.map (fun r => r.1)

/-- The stacked metric matrix of line 50. -/
def matrixOf (rows : List (ℤ × List ℚ)) : List (List ℚ) := rows.map (fun r => r.2)

/-- `sel_indices` of the partition loop (lines 85-91). -/
def selIndicesOf (rows : List (ℤ × List ℚ)) (req : SimilarityHistogramRequest) :
    List ℕ :=
  (List.range (rowIdsOf rows).length).filter
    (fun i => (rowIdsOf rows).getD i 0 ∈ req.selected_items.map (fun it => it.id))

/-- `rej_indices`: reached only through the `elif`, so an identifier in
both sets never lands here. -/
def rejIndicesOf (rows : List (ℤ × List ℚ)) (req : SimilarityHistogramRequest) :
    List ℕ :=
  (List.range (rowIdsOf rows).length).filter
    (fun i => (rowIdsOf rows).getD i 0 ∉ req.selected_items.map (fun it => it.id) ∧
      (rowIdsOf rows).getD i 0 ∈ req.rejected_items.map (fun it => it.id))

def selVectorsOf (rows : List (ℤ × List ℚ)) (req : SimilarityHistogramRequest) :
    List (List ℚ) :=
  (selIndicesOf rows req).map (fun i => (matrixOf rows).getD i [])

def rejVectorsOf (rows : List (ℤ × List ℚ)) (req : SimilarityHistogramRequest) :
    List (List ℚ) :=
  (rejIndicesOf rows req).map (fun i => (matrixOf rows).getD i [])

/-- `sel_weights` (line 104): looked up in the finished weight map with
`CLICK_WEIGHT` as the default. -/
def selWeightsOf (clickW thresholdW : ℚ) (rows : List (ℤ × List ℚ))
    (req : SimilarityHistogramRequest) : List ℚ :=
  (selIndicesOf rows req).map (fun i =>
    dictGet (buildIdToWeight clickW thresholdW req.selected_items req.rejected_items)
      ((rowIdsOf rows).getD i 0) clickW)

/-- `rej_weights` (line 105). -/
def rejWeightsOf (clickW thresholdW : ℚ) (rows : List (ℤ × List ℚ))
    (req : SimilarityHistogramRequest) : List ℚ :=
  (rejIndicesOf rows req).map (fun i =>
    dictGet (buildIdToWeight clickW thresholdW req.selected_items req.rejected_items)
      ((rowIdsOf rows).getD i 0) clickW)

/-- `y_train` (line 123). -/
def ytrainOf (rows : List (ℤ × List ℚ)) (req : SimilarityHistogramRequest) :
    List ℤ :=
  List.replicate (selVectorsOf rows req).length 1
    ++ List.replicate (rejVectorsOf rows req).length 0

/-- Everything `get_similarity_score_histogram` produces or mutates,
together with the training events of the request (used to settle the
caching claims) and the matrices handed to the auxiliary classifiers
(used to settle the standardization claim). -/
structure StepResult (SvmModel RFModel MLPModel : Type) where
  response : SimilarityHistogramResponse
  cacheAfter : List ((List (ℤ × Source) × List (ℤ × Source)) × (SvmModel × ScalerParams))
  svmTrained : Bool
  usedModelScaler : Option (SvmModel × ScalerParams)
  rfTrainRan : Bool
  mlpTrainRan : Bool
  selIndices : List ℕ
  rejIndices : List ℕ
  selWeights : List ℚ
  rejWeights : List ℚ
  rfScoringMatrix : List (List ℚ)
  rfTrainingMatrix : List (List ℚ)

/-- The non-degenerate path of `get_similarity_score_histogram` (lines
102-151): cache lookup-or-train of the `(SVC, StandardScaler)` pair,
scoring of all rows, unconditional committee training on the raw combined
matrix, and — when at least one auxiliary model trained — committee votes
computed on `scaler.transform(metrics_matrix)` (line 132), which
`predict_with_committee` scales a second time with the committee scaler
(line 115). -/
noncomputable def stepFull {SvmModel RFModel MLPModel : Type}
    (svmFit : List (List ℚ) → List ℤ → List ℚ → SvmModel)
    (svmDecision : SvmModel → List ℚ → ℚ)
    (rfFit : List (List ℚ) → List ℤ → List ℚ → ℕ → ℕ → Except String RFModel)
    (rfPredict : RFModel → List ℚ → ℤ)
    (mlpFit : List (List ℚ) → List ℤ → List ℚ → List ℕ → Except String MLPModel)
    (mlpPredict : MLPModel → List ℚ → ℤ)
    (clickW thresholdW : ℚ)
    (cache : List ((List (ℤ × Source) × List (ℤ × Source)) × (SvmModel × ScalerParams)))
    (req : SimilarityHistogramRequest) (rows : List (ℤ × List ℚ)) :
    StepResult SvmModel RFModel MLPModel :=
  let key := cacheKeyOf req.selected_items req.rejected_items
  let trained := trainSvmModel svmFit (selVectorsOf rows req) (rejVectorsOf rows req)
    (selWeightsOf clickW thresholdW rows req) (rejWeightsOf clickW thresholdW rows req)
  let modelScaler := (cacheGet cache key).getD trained
  let cacheAfter :=
    match cacheGet cache key with
    | some _ => cache
    | none => cachePut 100 cache key trained
  let scores := scoreWithSvm svmDecision modelScaler.1 modelScaler.2 (matrixOf rows)
  let scoresDict := (rowIdsOf rows).zip scores
  let Xtrain := selVectorsOf rows req ++ rejVectorsOf rows req
  let committee := trainCommittee rfFit mlpFit Xtrain (ytrainOf rows req)
    (selWeightsOf clickW thresholdW rows req ++ rejWeightsOf clickW thresholdW rows req)
  let Xsvmscaled := scalerTransform modelScaler.2 (matrixOf rows)
  let committeeInput :=
    match committee.2.2 with
    | some sc => scalerTransform sc Xsvmscaled
    | none => Xsvmscaled
  let committeeVotes :=
    if committee.1.isSome ∨ committee.2.1.isSome then
      some (((rowIdsOf rows).zip (predictWithCommittee scores
          (committee.1.map (fun m => committeeInput.map (rfPredict m)))
          (committee.2.1.map (fun m => committeeInput.map (mlpPredict m))))).map
        (fun e => (e.1, (⟨e.2.svm_prediction, e.2.rf_prediction,
          e.2.mlp_prediction, e.2.vote_entropy⟩ : CommitteeVoteInfo))))
    else none
  ⟨buildSimilarityHistogramResponse scoresDict scores scoresDict.length
      committeeVotes,
   cacheAfter, (cacheGet cache key).isNone, some modelScaler,
   decide (3 ≤ (ytrainOf rows req).count 1 ∧ 3 ≤ (ytrainOf rows req).count 0),
   decide (3 ≤ (ytrainOf rows req).count 1 ∧ 3 ≤ (ytrainOf rows req).count 0),
   selIndicesOf rows req, rejIndicesOf rows req,
   selWeightsOf clickW thresholdW rows req, rejWeightsOf clickW thresholdW rows req,
   (if committee.1.isSome ∨ committee.2.1.isSome then committeeInput else []),
   scalerTransform (fitScaler Xtrain) Xtrain⟩

/-- `ClassificationService.get_similarity_score_histogram` (lines 55-151).
The two early returns (no metric rows / a missing class, lines 62-69 and
93-100) produce the explicit empty response; otherwise the non-degenerate
path `stepFull` runs.  The embedding is a total function: none of the
branches raises. -/
noncomputable def getSimilarityScoreHistogram
    {SvmModel RFModel MLPModel : Type}
    (svmFit : List (List ℚ) → List ℤ → List ℚ → SvmModel)
    (svmDecision : SvmModel → List ℚ → ℚ)
    (rfFit : List (List ℚ) → List ℤ → List ℚ → ℕ → ℕ → Except String RFModel)
    (rfPredict : RFModel → List ℚ → ℤ)
    (mlpFit : List (List ℚ) → List ℤ → List ℚ → List ℕ → Except String MLPModel)
    (mlpPredict : MLPModel → List ℚ → ℤ)
    (clickW thresholdW : ℚ) (ds : DataStore)
    (cache : List ((List (ℤ × Source) × List (ℤ × Source)) × (SvmModel × ScalerParams)))
    (req : SimilarityHistogramRequest) :
    StepResult SvmModel RFModel MLPModel :=
  match extractMetrics ds req.block_ids with
  | none =>
      ⟨emptyHistogramResponse, cache, false, none, false, false,
       [], [], [], [], [], []⟩
  | some rows =>
      if selIndicesOf rows req = [] ∨ rejIndicesOf rows req = [] then
        ⟨emptyHistogramResponse, cache, false, none, false, false,
         selIndicesOf rows req, rejIndicesOf rows req, [], [], [], []⟩
      else
        stepFull svmFit svmDecision rfFit rfPredict mlpFit mlpPredict
          clickW thresholdW cache req rows

/-- C4: whenever no candidate has metric data, or the positive labeled
set is empty, or the negative labeled set is empty, the score operation
returns the explicit empty response — empty score mapping, empty
histogram sequences, all-zero statistics, `total_items = 0` — and, the
embedding being a total function, never an error. -/
theorem score_degenerate_empty {S R M : Type}
    (svmFit : List (List ℚ) → List ℤ → List ℚ → S)
    (svmDecision : S → List ℚ → ℚ)
    (rfFit : List (List ℚ) → List ℤ → List ℚ → ℕ → ℕ → Except String R)
    (rfPredict : R → List ℚ → ℤ)
    (mlpFit : List (List ℚ) → List ℤ → List ℚ → List ℕ → Except String M)
    (mlpPredict : M → List ℚ → ℤ)
    (clickW thresholdW : ℚ) (ds : DataStore)
    (cache : List ((List (ℤ × Source) × List (ℤ × Source)) × (S × ScalerParams)))
    (req : SimilarityHistogramRequest)
    (h : extractMetrics ds req.block_ids = none ∨
      req.selected_items = [] ∨ req.rejected_items = []) :
    (getSimilarityScoreHistogram svmFit svmDecision rfFit rfPredict mlpFit
        mlpPredict clickW thresholdW ds cache req).response
      = emptyHistogramResponse ∧
    (getSimilarityScoreHistogram svmFit svmDecision rfFit rfPredict mlpFit
        mlpPredict clickW thresholdW ds cache req).response.scores = [] ∧
    (getSimilarityScoreHistogram svmFit svmDecision rfFit rfPredict mlpFit
        mlpPredict clickW thresholdW ds cache req).response.total_items = 0 ∧
    (getSimilarityScoreHistogram svmFit svmDecision rfFit rfPredict mlpFit
        mlpPredict clickW thresholdW ds cache req).response.histogram
      = ⟨[], [], []⟩ ∧
    (getSimilarityScoreHistogram svmFit svmDecision rfFit rfPredict mlpFit
        mlpPredict clickW thresholdW ds cache req).response.statistics
      = ⟨0, 0, 0, 0⟩ ∧
    (getSimilarityScoreHistogram svmFit svmDecision rfFit rfPredict mlpFit
        mlpPredict clickW thresholdW ds cache req).response.committee_votes
      = none := by
  have hresp : (getSimilarityScoreHistogram svmFit svmDecision rfFit rfPredict
      mlpFit mlpPredict clickW thresholdW ds cache req).response
      = emptyHistogramResponse := by
    rcases hx : extractMetrics ds req.block_ids with _ | rows
    · unfold getSimilarityScoreHistogram
      rw [hx]
    · rcases h with h | h | h
      · rw [hx] at h
        exact absurd h (by simp)
      · unfold getSimilarityScoreHistogram
        simp only [hx]
        rw [if_pos (Or.inl (by simp [selIndicesOf, h]))]
      · unfold getSimilarityScoreHistogram
        simp only [hx]
        rw [if_pos (Or.inr (by simp [rejIndicesOf, h]))]
  refine ⟨hresp, ?_, ?_, ?_, ?_, ?_⟩ <;> rw [hresp] <;> rfl

theorem score_degenerate_empty_witness :
    (extractMetrics ⟨some [(1, [0]), (2, [1])], true⟩ [1, 2] = none ∨
      ([] : List WeightedBlockId) = [] ∨
      [(⟨2, Source.click⟩ : WeightedBlockId)] = []) ∧
    (getSimilarityScoreHistogram
        (fun _ _ _ => ()) (fun _ _ => 0)
        (fun _ _ _ _ _ => (Except.ok () : Except String Unit))
        (fun _ _ => 1) (fun _ _ _ _ => (Except.ok () : Except String Unit))
        (fun _ _ => 1)
        1 (1/2) ⟨some [(1, [0]), (2, [1])], true⟩ []
        ⟨[], [⟨2, Source.click⟩], [1, 2]⟩).response
      = emptyHistogramResponse :=
  ⟨Or.inr (Or.inl rfl),
   (score_degenerate_empty (fun _ _ _ => ()) (fun _ _ => 0)
      (fun _ _ _ _ _ => Except.ok ()) (fun _ _ => 1)
      (fun _ _ _ _ => Except.ok ()) (fun _ _ => 1) 1 (1/2)
      ⟨some [(1, [0]), (2, [1])], true⟩ [] ⟨[], [⟨2, Source.click⟩], [1, 2]⟩
      (Or.inr (Or.inl rfl))).1⟩

theorem dictGet_nil (k : ℤ) (defaultV : ℚ) : dictGet [] k defaultV = defaultV := rfl

theorem dictGet_cons (e : ℤ × ℚ) (t : List (ℤ × ℚ)) (k : ℤ) (defaultV : ℚ) :
    dictGet (e :: t) k defaultV
      = if e.1 = k then e.2 else dictGet t k defaultV := by
  rw [dictGet, dictGet]
  by_cases he : e.1 = k
  · rw [List.find?_cons_of_pos _ (by simp [he]), if_pos he]
  · rw [List.find?_cons_of_neg _ (by simp [he]), if_neg he]

theorem dictInsert_cons_ne (e : ℤ × ℚ) (t : List (ℤ × ℚ)) (k : ℤ) (v : ℚ)
    (h : ¬(e.1 = k)) : dictInsert (e :: t) k v = e :: dictInsert t k v := by
  rw [dictInsert, dictInsert]
  by_cases ht : t.any (fun e2 => e2.1 = k)
  · rw [if_pos (by simp [List.any_cons, ht]), if_pos ht]
    simp [h]
  · rw [if_neg (by simp [List.any_cons, h, ht]), if_neg ht]
    simp

theorem find?_map_subst (k kq : ℤ) (v : ℚ) (h : ¬(k = kq)) (t : List (ℤ × ℚ)) :
    (t.map (fun e => if e.1 = k then (k, v) else e)).find? (fun e => e.1 = kq)
      = t.find? (fun e => e.1 = kq) := by
  induction t with
  | nil => rfl
  | cons e t ih =>
    by_cases hek : e.1 = k
    · simp only [List.map_cons, if_pos hek]
      rw [List.find?_cons_of_neg _ (by simp [h]),
          List.find?_cons_of_neg _ (by simp [hek, h]), ih]
    · simp only [List.map_cons, if_neg hek]
      by_cases hex : e.1 = kq
      · rw [List.find?_cons_of_pos _ (by simp [hex]),
            List.find?_cons_of_pos _ (by simp [hex])]
      · rw [List.find?_cons_of_neg _ (by simp [hex]),
            List.find?_cons_of_neg _ (by simp [hex]), ih]

theorem dictGet_insert_same (d : List (ℤ × ℚ)) (k : ℤ) (v defaultV : ℚ) :
    dictGet (dictInsert d k v) k defaultV = v := by
  induction d with
  | nil =>
    rw [dictInsert, if_neg (by simp), List.nil_append, dictGet_cons]
    simp
  | cons e t ih =>
    by_cases hek : e.1 = k
    · rw [dictInsert, if_pos (by simp [List.any_cons, hek])]
      simp only [List.map_cons, if_pos hek]
      rw [dictGet_cons]
      simp
    · rw [dictInsert_cons_ne e t k v hek, dictGet_cons, if_neg hek, ih]

theorem dictGet_insert_other (d : List (ℤ × ℚ)) (k kq : ℤ) (v defaultV : ℚ)
    (h : ¬(kq = k)) :
    dictGet (dictInsert d k v) kq defaultV = dictGet d kq defaultV := by
  induction d with
  | nil =>
    rw [dictInsert, if_neg (by simp), List.nil_append, dictGet_cons,
        if_neg (by simpa using fun hc => h hc.symm)]
  | cons e t ih =>
    by_cases hek : e.1 = k
    · rw [dictInsert, if_pos (by simp [List.any_cons, hek])]
      simp only [List.map_cons, if_pos hek]
      rw [dictGet_cons, dictGet_cons, if_neg (fun hc => h hc.symm),
          if_neg (by rw [hek]; exact fun hc => h hc.symm)]
      rw [dictGet, dictGet, find?_map_subst k kq v (fun hc => h hc.symm) t]
    · rw [dictInsert_cons_ne e t k v hek, dictGet_cons, dictGet_cons, ih]

theorem dictGet_insert (d : List (ℤ × ℚ)) (k kq : ℤ) (v defaultV : ℚ) :
    dictGet (dictInsert d k v) kq defaultV
      = if kq = k then v else dictGet d kq defaultV := by
  by_cases h : kq = k
  · rw [if_pos h, h, dictGet_insert_same]
  · rw [if_neg h, dictGet_insert_other d k kq v defaultV h]

theorem dictGet_weight_foldl_not_mem (cw tw : ℚ) (items : List WeightedBlockId)
    (x : ℤ) (h : ∀ it ∈ items, it.id ≠ x) :
    ∀ d0 : List (ℤ × ℚ),
      dictGet (items.foldl
          (fun d it => dictInsert d it.id (weightOf cw tw it.source)) d0) x cw
        = dictGet d0 x cw := by
  induction items with
  | nil => intro d0; rfl
  | cons it rest ih =>
    intro d0
    rw [List.foldl_cons, ih (fun i2 hi2 => h i2 (List.mem_cons_of_mem it hi2)),
        dictGet_insert, if_neg (fun hc => h it (List.mem_cons_self _ _) hc.symm)]

theorem dictGet_weight_foldl_mem (cw tw : ℚ) (items : List WeightedBlockId)
    (x : ℤ) (srcR : Source)
    (hmem : ∃ it ∈ items, it.id = x)
    (hall : ∀ it ∈ items, it.id = x → it.source = srcR) :
    ∀ d0 : List (ℤ × ℚ),
      dictGet (items.foldl
          (fun d it => dictInsert d it.id (weightOf cw tw it.source)) d0) x cw
        = weightOf cw tw srcR := by
  induction items with
  | nil => exact absurd hmem (by simp)
  | cons it rest ih =>
    intro d0
    by_cases hrest : ∃ i2 ∈ rest, i2.id = x
    · rw [List.foldl_cons]
      exact ih hrest (fun i2 hi2 hx => hall i2 (List.mem_cons_of_mem it hi2) hx) _
    · have hit : it.id = x := by
        rcases hmem with ⟨i2, hi2, hx⟩
        rcases List.mem_cons.mp hi2 with rfl | hi2'
        · exact hx
        · exact absurd ⟨i2, hi2', hx⟩ hrest
      push_neg at hrest
      rw [List.foldl_cons, dictGet_weight_foldl_not_mem cw tw rest x hrest,
          dictGet_insert, if_pos hit.symm,
          hall it (List.mem_cons_self _ _) hit]

/-- The partition/weight behaviour for an identifier in both labeled
sets, established by `overlap_positive_rejected_weight`. -/
def OverlapSpec (clickW thresholdW : ℚ) (rows : List (ℤ × List ℚ))
    (req : SimilarityHistogramRequest) (x : ℤ) (srcR : Source) (i : ℕ) : Prop :=
  i ∈ selIndicesOf rows req ∧
  i ∉ rejIndicesOf rows req ∧
  dictGet (buildIdToWeight clickW thresholdW req.selected_items
      req.rejected_items) x clickW
    = weightOf clickW thresholdW srcR ∧
  (∀ p, p < (selIndicesOf rows req).length →
    (selIndicesOf rows req).getD p 0 = i →
    (selWeightsOf clickW thresholdW rows req).getD p 0
      = weightOf clickW thresholdW srcR)

/-- C10: an identifier appearing in both the selected and the rejected
lists is partitioned to the positive class only (the `elif` never fires),
while its training weight is the weight of its rejected-list tier, because
the rejected loop overwrites the shared entry of `id_to_weight`. -/
theorem overlap_positive_rejected_weight
    (clickW thresholdW : ℚ) (rows : List (ℤ × List ℚ))
    (req : SimilarityHistogramRequest) (x : ℤ) (srcR : Source)
    (hselmem : x ∈ req.selected_items.map (fun it => it.id))
    (hrejmem : (⟨x, srcR⟩ : WeightedBlockId) ∈ req.rejected_items)
    (hrejuniq : ∀ it ∈ req.rejected_items, it.id = x → it.source = srcR)
    (i : ℕ) (hi : i < (rowIdsOf rows).length)
    (hrow : (rowIdsOf rows).getD i 0 = x) :
    OverlapSpec clickW thresholdW rows req x srcR i := by
  have hwmap : dictGet (buildIdToWeight clickW thresholdW req.selected_items
      req.rejected_items) x clickW = weightOf clickW thresholdW srcR := by
    rw [buildIdToWeight]
    exact dictGet_weight_foldl_mem clickW thresholdW req.rejected_items x srcR
      ⟨⟨x, srcR⟩, hrejmem, rfl⟩ hrejuniq _
  refine ⟨?_, ?_, hwmap, ?_⟩
  · apply List.mem_filter.mpr
    refine ⟨List.mem_range.mpr hi, ?_⟩
    simp only [hrow, decide_eq_true_eq]
    exact hselmem
  · intro hmem
    have := (List.mem_filter.mp hmem).2
    simp only [hrow, decide_eq_true_eq] at this
    exact this.1 hselmem
  · intro p hp hpi
    have hplen : p < (selIndicesOf rows req).length := hp
    rw [selWeightsOf, getD_map_lt _ _ p _ hplen,
        ← getD_lt_eq_get (selIndicesOf rows req) p 0 hplen, hpi, hrow, hwmap]

theorem overlap_positive_rejected_weight_witness :
    OverlapSpec 1 (1/2) [(1, [0]), (2, [1])]
      ⟨[⟨1, Source.click⟩], [⟨1, Source.threshold⟩, ⟨2, Source.click⟩], [1, 2]⟩
      1 Source.threshold 0 :=
  overlap_positive_rejected_weight 1 (1/2) [(1, [0]), (2, [1])]
    ⟨[⟨1, Source.click⟩], [⟨1, Source.threshold⟩, ⟨2, Source.click⟩], [1, 2]⟩
    1 Source.threshold (by decide) (by decide) (by decide) 0 (by decide) (by decide)

theorem step_full_of_nondegenerate {S R M : Type}
    (svmFit : List (List ℚ) → List ℤ → List ℚ → S)
    (svmDecision : S → List ℚ → ℚ)
    (rfFit : List (List ℚ) → List ℤ → List ℚ → ℕ → ℕ → Except String R)
    (rfPredict : R → List ℚ → ℤ)
    (mlpFit : List (List ℚ) → List ℤ → List ℚ → List ℕ → Except String M)
    (mlpPredict : M → List ℚ → ℤ)
    (clickW thresholdW : ℚ) (ds : DataStore)
    (cache : List ((List (ℤ × Source) × List (ℤ × Source)) × (S × ScalerParams)))
    (req : SimilarityHistogramRequest) (rows : List (ℤ × List ℚ))
    (hext : extractMetrics ds req.block_ids = some rows)
    (hsel : selIndicesOf rows req ≠ []) (hrej : rejIndicesOf rows req ≠ []) :
    getSimilarityScoreHistogram svmFit svmDecision rfFit rfPredict mlpFit
        mlpPredict clickW thresholdW ds cache req
      = stepFull svmFit svmDecision rfFit rfPredict mlpFit mlpPredict
        clickW thresholdW cache req rows := by
  unfold getSimilarityScoreHistogram
  simp only [hext]
  rw [if_neg (by simp [hsel, hrej])]

theorem ytrain_counts (rows : List (ℤ × List ℚ)) (req : SimilarityHistogramRequest) :
    (ytrainOf rows req).count 1 = (selIndicesOf rows req).length ∧
    (ytrainOf rows req).count 0 = (rejIndicesOf rows req).length := by
  rw [ytrainOf]
  constructor <;>
    simp [List.count_append, List.count_replicate, selVectorsOf, rejVectorsOf]

/-- The cache-hit behaviour established by `cache_hit_no_margin_retrain`. -/
def CacheHitSpec {S R M : Type} (r : StepResult S R M)
    (cache : List ((List (ℤ × Source) × List (ℤ × Source)) × (S × ScalerParams)))
    (ms : S × ScalerParams) (rows : List (ℤ × List ℚ))
    (req : SimilarityHistogramRequest) : Prop :=
  r.svmTrained = false ∧
  r.usedModelScaler = some ms ∧
  r.cacheAfter = cache ∧
  (r.rfTrainRan = true ↔
    (3 ≤ (selIndicesOf rows req).length ∧ 3 ≤ (rejIndicesOf rows req).length)) ∧
  r.mlpTrainRan = r.rfTrainRan

/-- C1 (amended): on a cache hit the cached `(margin classifier, scaler)`
pair is reused, the margin classifier is not trained again and the cache
is unchanged; but the cache stores only that pair — the tree ensemble and
the neural classifier are trained anew on every scoring request whose
classes meet the 3-sample threshold, hit or miss. -/
theorem cache_hit_no_margin_retrain {S R M : Type}
    (svmFit : List (List ℚ) → List ℤ → List ℚ → S)
    (svmDecision : S → List ℚ → ℚ)
    (rfFit : List (List ℚ) → List ℤ → List ℚ → ℕ → ℕ → Except String R)
    (rfPredict : R → List ℚ → ℤ)
    (mlpFit : List (List ℚ) → List ℤ → List ℚ → List ℕ → Except String M)
    (mlpPredict : M → List ℚ → ℤ)
    (clickW thresholdW : ℚ) (ds : DataStore)
    (cache : List ((List (ℤ × Source) × List (ℤ × Source)) × (S × ScalerParams)))
    (req : SimilarityHistogramRequest) (rows : List (ℤ × List ℚ))
    (ms : S × ScalerParams)
    (hext : extractMetrics ds req.block_ids = some rows)
    (hsel : selIndicesOf rows req ≠ []) (hrej : rejIndicesOf rows req ≠ [])
    (hhit : cacheGet cache (cacheKeyOf req.selected_items req.rejected_items)
      = some ms) :
    CacheHitSpec (getSimilarityScoreHistogram svmFit svmDecision rfFit rfPredict
      mlpFit mlpPredict clickW thresholdW ds cache req) cache ms rows req := by
  rw [CacheHitSpec, step_full_of_nondegenerate svmFit svmDecision rfFit rfPredict
      mlpFit mlpPredict clickW thresholdW ds cache req rows hext hsel hrej]
  obtain ⟨hc1, hc0⟩ := ytrain_counts rows req
  refine ⟨?_, ?_, ?_, ?_, rfl⟩
  · show (cacheGet cache (cacheKeyOf req.selected_items req.rejected_items)).isNone
      = false
    rw [hhit]
    rfl
  · show some ((cacheGet cache
      (cacheKeyOf req.selected_items req.rejected_items)).getD _) = some ms
    rw [hhit]
    rfl
  · show (match cacheGet cache (cacheKeyOf req.selected_items req.rejected_items)
        with
      | some _ => cache
      | none => cachePut 100 cache
          (cacheKeyOf req.selected_items req.rejected_items) _) = cache
    rw [hhit]
  · show decide (3 ≤ (ytrainOf rows req).count 1
        ∧ 3 ≤ (ytrainOf rows req).count 0) = true ↔ _
    rw [decide_eq_true_iff, hc1, hc0]

def reqC1 : SimilarityHistogramRequest :=
  ⟨[⟨1, Source.click⟩, ⟨2, Source.click⟩, ⟨3, Source.click⟩],
   [⟨4, Source.click⟩, ⟨5, Source.click⟩, ⟨6, Source.click⟩],
   [1, 2, 3, 4, 5, 6]⟩

def tableC1 : List (ℤ × List ℚ) :=
  [(1, [0]), (2, [0]), (3, [0]), (4, [2]), (5, [2]), (6, [2])]

def dsC1 : DataStore := ⟨some tableC1, true⟩

def cacheC1 :
    List ((List (ℤ × Source) × List (ℤ × Source)) × (Unit × ScalerParams)) :=
  [(cacheKeyOf reqC1.selected_items reqC1.rejected_items, ((), ⟨[1], [1]⟩))]

/-- C1, counterexample to the original claim: a request whose cache key is
present (the lookup hits, the margin classifier is not retrained) but
whose classes have 3 samples each, so `train_committee` still trains the
tree ensemble and the neural classifier during the request — the cache
holds only the `(SVC, StandardScaler)` pair, not the trio. -/
theorem cache_hit_retrains_committee_counterexample :
    (cacheGet cacheC1
        (cacheKeyOf reqC1.selected_items reqC1.rejected_items)).isSome = true ∧
    (getSimilarityScoreHistogram (fun _ _ _ => ()) (fun _ _ => (0 : ℚ))
        (fun _ _ _ _ _ => (Except.ok () : Except String Unit)) (fun _ _ => 1)
        (fun _ _ _ _ => (Except.ok () : Except String Unit)) (fun _ _ => 1)
        1 (1/2) dsC1 cacheC1 reqC1).svmTrained = false ∧
    (getSimilarityScoreHistogram (fun _ _ _ => ()) (fun _ _ => (0 : ℚ))
        (fun _ _ _ _ _ => (Except.ok () : Except String Unit)) (fun _ _ => 1)
        (fun _ _ _ _ => (Except.ok () : Except String Unit)) (fun _ _ => 1)
        1 (1/2) dsC1 cacheC1 reqC1).rfTrainRan = true ∧
    (getSimilarityScoreHistogram (fun _ _ _ => ()) (fun _ _ => (0 : ℚ))
        (fun _ _ _ _ _ => (Except.ok () : Except String Unit)) (fun _ _ => 1)
        (fun _ _ _ _ => (Except.ok () : Except String Unit)) (fun _ _ => 1)
        1 (1/2) dsC1 cacheC1 reqC1).mlpTrainRan = true := by
  have hext : extractMetrics dsC1 reqC1.block_ids = some tableC1 := rfl
  have hhit : cacheGet cacheC1
      (cacheKeyOf reqC1.selected_items reqC1.rejected_items)
      = some ((), (⟨[1], [1]⟩ : ScalerParams)) := by
    rw [cacheC1, cacheGet]
    rw [List.find?_cons_of_pos _ (by simp)]
    rfl
  have hsel : selIndicesOf tableC1 reqC1 ≠ [] := by decide
  have hrej : rejIndicesOf tableC1 reqC1 ≠ [] := by decide
  have hred := step_full_of_nondegenerate (fun _ _ _ => ()) (fun _ _ => (0 : ℚ))
    (fun _ _ _ _ _ => (Except.ok () : Except String Unit)) (fun _ _ => 1)
    (fun _ _ _ _ => (Except.ok () : Except String Unit)) (fun _ _ => 1)
    1 (1/2) dsC1 cacheC1 reqC1 tableC1 hext hsel hrej
  obtain ⟨hc1, hc0⟩ := ytrain_counts tableC1 reqC1
  have hcount1 : (selIndicesOf tableC1 reqC1).length = 3 := by decide
  have hcount0 : (rejIndicesOf tableC1 reqC1).length = 3 := by decide
  refine ⟨by rw [hhit]; rfl, ?_, ?_, ?_⟩
  · rw [hred]
    show (cacheGet cacheC1
      (cacheKeyOf reqC1.selected_items reqC1.rejected_items)).isNone = false
    rw [hhit]
    rfl
  · rw [hred]
    show decide (3 ≤ (ytrainOf tableC1 reqC1).count 1
        ∧ 3 ≤ (ytrainOf tableC1 reqC1).count 0) = true
    rw [decide_eq_true_iff, hc1, hc0, hcount1, hcount0]
    omega
  · rw [hred]
    show decide (3 ≤ (ytrainOf tableC1 reqC1).count 1
        ∧ 3 ≤ (ytrainOf tableC1 reqC1).count 0) = true
    rw [decide_eq_true_iff, hc1, hc0, hcount1, hcount0]
    omega

theorem cache_hit_no_margin_retrain_witness :
    CacheHitSpec (getSimilarityScoreHistogram (fun _ _ _ => ()) (fun _ _ => (0 : ℚ))
        (fun _ _ _ _ _ => (Except.ok () : Except String Unit)) (fun _ _ => 1)
        (fun _ _ _ _ => (Except.ok () : Except String Unit)) (fun _ _ => 1)
        1 (1/2) dsC1 cacheC1 reqC1) cacheC1 ((), ⟨[1], [1]⟩) tableC1 reqC1 :=
  cache_hit_no_margin_retrain (fun _ _ _ => ()) (fun _ _ => (0 : ℚ))
    (fun _ _ _ _ _ => (Except.ok () : Except String Unit)) (fun _ _ => 1)
    (fun _ _ _ _ => (Except.ok () : Except String Unit)) (fun _ _ => 1)
    1 (1/2) dsC1 cacheC1 reqC1 tableC1 ((), ⟨[1], [1]⟩) rfl (by decide) (by decide)
    (by rw [cacheC1, cacheGet]; rw [List.find?_cons_of_pos _ (by simp)]; rfl)

/-- The double-standardization divergence established by
`double_standardization_bug`: at scoring time the auxiliary classifiers
receive the candidate matrix standardized twice (once by the SVM scaler,
once more inside `predict_with_committee` by the committee scaler, both
fitted on the same raw training matrix), while at training time they saw
it standardized once. -/
def DoubleScalingSpec {S R M : Type} (r : StepResult S R M)
    (rows : List (ℤ × List ℚ)) (req : SimilarityHistogramRequest) : Prop :=
  r.rfScoringMatrix
    = scalerTransform (fitScaler (selVectorsOf rows req ++ rejVectorsOf rows req))
        (scalerTransform
          (fitScaler (selVectorsOf rows req ++ rejVectorsOf rows req))
          (matrixOf rows)) ∧
  r.rfTrainingMatrix
    = scalerTransform (fitScaler (selVectorsOf rows req ++ rejVectorsOf rows req))
        (selVectorsOf rows req ++ rejVectorsOf rows req)

/-- C7 is violated by the code: on a cache miss with the committee trained,
the matrix handed to the tree ensemble and neural classifier at scoring
time is standardized twice, not once as at training time; and twice is not
once — on the training matrix `[[0],[0],[0],[2],[2],[2]]` (mean 1,
variance 1) the single transform of the raw row `[0]` is `[-1]` while the
scoring pipeline produces `[-2]` for the same raw row. -/
theorem double_standardization_bug {S R M : Type}
    (svmFit : List (List ℚ) → List ℤ → List ℚ → S)
    (svmDecision : S → List ℚ → ℚ)
    (rfFit : List (List ℚ) → List ℤ → List ℚ → ℕ → ℕ → Except String R)
    (rfPredict : R → List ℚ → ℤ)
    (mlpFit : List (List ℚ) → List ℤ → List ℚ → List ℕ → Except String M)
    (mlpPredict : M → List ℚ → ℤ)
    (clickW thresholdW : ℚ) (ds : DataStore)
    (cache : List ((List (ℤ × Source) × List (ℤ × Source)) × (S × ScalerParams)))
    (req : SimilarityHistogramRequest) (rows : List (ℤ × List ℚ))
    (hext : extractMetrics ds req.block_ids = some rows)
    (hsel : selIndicesOf rows req ≠ []) (hrej : rejIndicesOf rows req ≠ [])
    (hmiss : cacheGet cache (cacheKeyOf req.selected_items req.rejected_items)
      = none)
    (hth1 : 3 ≤ (selIndicesOf rows req).length)
    (hth0 : 3 ≤ (rejIndicesOf rows req).length)
    (hsome : (trainCommittee rfFit mlpFit
        (selVectorsOf rows req ++ rejVectorsOf rows req) (ytrainOf rows req)
        (selWeightsOf clickW thresholdW rows req
          ++ rejWeightsOf clickW thresholdW rows req)).1.isSome = true ∨
      (trainCommittee rfFit mlpFit
        (selVectorsOf rows req ++ rejVectorsOf rows req) (ytrainOf rows req)
        (selWeightsOf clickW thresholdW rows req
          ++ rejWeightsOf clickW thresholdW rows req)).2.1.isSome = true) :
    DoubleScalingSpec (getSimilarityScoreHistogram svmFit svmDecision rfFit
      rfPredict mlpFit mlpPredict clickW thresholdW ds cache req) rows req ∧
    scalerTransform (fitScaler [[0], [0], [0], [2], [2], [2]])
        (scalerTransform (fitScaler [[0], [0], [0], [2], [2], [2]])
          [[0], [0], [0], [2], [2], [2]])
      ≠ scalerTransform (fitScaler [[0], [0], [0], [2], [2], [2]])
          [[0], [0], [0], [2], [2], [2]] := by
  obtain ⟨hc1, hc0⟩ := ytrain_counts rows req
  have hcomm : (trainCommittee rfFit mlpFit
      (selVectorsOf rows req ++ rejVectorsOf rows req) (ytrainOf rows req)
      (selWeightsOf clickW thresholdW rows req
        ++ rejWeightsOf clickW thresholdW rows req)).2.2
      = some (fitScaler (selVectorsOf rows req ++ rejVectorsOf rows req)) := by
    rw [trainCommittee, if_neg (by rw [hc1, hc0]; omega)]
  constructor
  · rw [DoubleScalingSpec,
      step_full_of_nondegenerate svmFit svmDecision rfFit rfPredict mlpFit
        mlpPredict clickW thresholdW ds cache req rows hext hsel hrej]
    constructor
    · show (if (trainCommittee rfFit mlpFit
          (selVectorsOf rows req ++ rejVectorsOf rows req) (ytrainOf rows req)
          (selWeightsOf clickW thresholdW rows req
            ++ rejWeightsOf clickW thresholdW rows req)).1.isSome = true ∨
          (trainCommittee rfFit mlpFit
            (selVectorsOf rows req ++ rejVectorsOf rows req) (ytrainOf rows req)
            (selWeightsOf clickW thresholdW rows req
              ++ rejWeightsOf clickW thresholdW rows req)).2.1.isSome = true
        then _ else []) = _
      rw [if_pos hsome, hcomm]
      show scalerTransform _ (scalerTransform ((cacheGet cache
          (cacheKeyOf req.selected_items req.rejected_items)).getD _).2
          (matrixOf rows)) = _
      rw [hmiss]
      rfl
    · rfl
  · have hfit : fitScaler [[0], [0], [0], [2], [2], [2]]
        = ⟨[1], [1]⟩ := by
      rw [fitScaler]
      norm_num [numCols, colMean, colVar, colScale, meanQ, ratSqrt,
        List.range_succ]
    have h1 : scalerTransform (⟨[1], [1]⟩ : ScalerParams)
        [[0], [0], [0], [2], [2], [2]]
        = [[-1], [-1], [-1], [1], [1], [1]] := by
      norm_num [scalerTransform, scalerTransformRow, List.range_succ]
    have h2 : scalerTransform (⟨[1], [1]⟩ : ScalerParams)
        [[-1], [-1], [-1], [1], [1], [1]]
        = [[-2], [-2], [-2], [0], [0], [0]] := by
      norm_num [scalerTransform, scalerTransformRow, List.range_succ]
    rw [hfit, h1, h2]
    intro hcontra
    norm_num at hcontra

theorem double_standardization_bug_witness :
    DoubleScalingSpec (getSimilarityScoreHistogram (fun _ _ _ => ())
        (fun _ _ => (0 : ℚ))
        (fun _ _ _ _ _ => (Except.ok () : Except String Unit)) (fun _ _ => 1)
        (fun _ _ _ _ => (Except.ok () : Except String Unit)) (fun _ _ => 1)
        1 (1/2) dsC1 [] reqC1) tableC1 reqC1 ∧
    scalerTransform (fitScaler [[0], [0], [0], [2], [2], [2]])
        (scalerTransform (fitScaler [[0], [0], [0], [2], [2], [2]])
          [[0], [0], [0], [2], [2], [2]])
      ≠ scalerTransform (fitScaler [[0], [0], [0], [2], [2], [2]])
          [[0], [0], [0], [2], [2], [2]] :=
  double_standardization_bug (fun _ _ _ => ()) (fun _ _ => (0 : ℚ))
    (fun _ _ _ _ _ => (Except.ok () : Except String Unit)) (fun _ _ => 1)
    (fun _ _ _ _ => (Except.ok () : Except String Unit)) (fun _ _ => 1)
    1 (1/2) dsC1 [] reqC1 tableC1 rfl (by decide) (by decide) rfl
    (by decide) (by decide)
    (Or.inl (by rw [trainCommittee, if_neg (by decide)]; rfl))

end FForLLM
